import Mathlib

/-!
A shallow embedding of the `walrus` write-ahead log engine (package `walrus`
in the repository's reference material): entries, the length-framed on-disk
segment format, segment operations, the log manager (`Append`, `WriteBatch`,
`Get`, `GetRange`, `Truncate`), the transaction manager
(`AddToTransaction`, `CommitTransaction`, `RollbackTransaction`,
`CleanupExpiredTransactions`), and recovery (`recoverSegment`,
`handleCorruptedEntry`).

Bytes are modelled as `Nat`; files as `List Nat`; Go's `time.Time` as a
`Nat` instant (`0` is the zero value); `time.Duration` as a `Nat`;
`TransactionID` (a random string in Go) as a `Nat` id.  I/O failure is
injected through an explicit fault schedule: a `List Bool` consumed one
flag per low-level file write / sync, `true` meaning that operation fails
(`takeFault` yields `false` once the list is exhausted, so `[]` is a
fault-free run).  A Go write that fails is modelled as writing nothing;
a Go write that succeeds appends its bytes.  Mutation of heap objects
through pointers (`w.currentSegment` aliasing an element of `w.segments`)
is modelled with an object store: `store` holds every live `Segment`
object keyed by its unique `index`, `segments` is the `w.segments` slice
as a list of those keys, and `currentSeg` is the `w.currentSegment`
pointer as an optional key.
-/

set_option autoImplicit false

namespace Walrus

/-- Error kinds of the WAL engine (section 7 of the design). `EOF` stands for
Go's `io.EOF`, which the source treats specially during recovery. -/
inductive WalErr where
  | WALClosed
  | IndexOutOfRange
  | SegmentNotFound
  | InvalidConfig
  | TransactionNotFound
  | TransactionNotPending
  | TransactionExpired
  | TransactionTooLarge
  | CorruptedSegment
  | IOFailure
  | EOF
  | DecodeFailed
  deriving DecidableEq

instance {ε α : Type} [DecidableEq ε] [DecidableEq α] : DecidableEq (Except ε α)
  | .error x, .error y =>
    if h : x = y then isTrue (by rw [h]) else isFalse (by intro hc; cases hc; exact h rfl)
  | .error _, .ok _ => isFalse (by intro hc; cases hc)
  | .ok _, .error _ => isFalse (by intro hc; cases hc)
  | .ok x, .ok y =>
    if h : x = y then isTrue (by rw [h]) else isFalse (by intro hc; cases hc; exact h rfl)

/-- Next fault flag of a schedule: `false` (success) once the schedule is
exhausted. -/
def takeFault : List Bool → Bool × List Bool
  | [] => (false, [])
  | b :: r => (b, r)

/-- `k` bytes of `n`, little-endian (the value actually stored is
`n % 256 ^ k`, matching Go's fixed-width integer truncation). -/
def leBytes : Nat → Nat → List Nat
  | 0, _ => []
  | k + 1, n => n % 256 :: leBytes k (n / 256)

/-- Little-endian byte list back to a number (each byte taken mod 256,
as a byte is). -/
def deBytes : List Nat → Nat
  | [] => 0
  | b :: r => b % 256 + 256 * deBytes r

/-- A log record (`walrus.Entry`): index, term, payload, checksum,
timestamp, transaction id. -/
structure Entry where
  Index : Nat
  Term : Nat
  Data : List Nat
  Checksum : Nat
  Timestamp : Nat
  TransactionID : Nat
  deriving DecidableEq

/-- Modelled from the spec: the body of `BinaryEncoder.Encode` is not in the
source material, which gives only the `Encoder` contract
(`encode(entry) -> bytes`, fallible) and its call sites.  The model
serializes the fixed-width fields (`u64` index, term, timestamp,
transaction id, `u32` checksum) little-endian, followed by the raw
payload bytes.  Encoding a well-formed entry always succeeds, so the
model is total. -/
def encode (e : Entry) : List Nat :=
  leBytes 8 e.Index ++ leBytes 8 e.Term ++ leBytes 8 e.Timestamp ++
    leBytes 8 e.TransactionID ++ leBytes 4 e.Checksum ++ e.Data

/-- Modelled from the spec: the body of `BinaryEncoder.Decode` is not in the
source material (`decode(bytes) -> entry`, fallible).  Inverse of
`encode`; fails on a buffer shorter than the 36 fixed bytes. -/
def decode (bs : List Nat) : Except WalErr Entry :=
  if bs.length < 36 then .error .DecodeFailed
  else .ok {
    Index := deBytes (bs.take 8)
    Term := deBytes ((bs.drop 8).take 8)
    Timestamp := deBytes ((bs.drop 16).take 8)
    TransactionID := deBytes ((bs.drop 24).take 8)
    Checksum := deBytes ((bs.drop 32).take 4)
    Data := bs.drop 36 }

/-- The on-disk frame of an encoded record: 4-byte little-endian length
followed by the bytes (`Segment.Write`'s wire format). -/
def frameOf (bs : List Nat) : List Nat :=
  leBytes 4 bs.length ++ bs

/-- A segment object (`walrus.Segment`).  `index` is the unique segment
identifier (also its key in the object store); `file` is the byte content
of its backing file; `closed` records whether its file handle has been
closed (a write/stat on a closed Go `os.File` fails). -/
structure Segment where
  index : Nat
  firstEntry : Nat
  lastEntry : Nat
  entryOffsets : List Nat
  file : List Nat
  closed : Bool
  deriving DecidableEq

/-- `createSegment`: fresh segment with the given identifier and an empty
file (the file-system path handling is irrelevant to the model). -/
def createSegment (idx : Nat) : Segment :=
  { index := idx, firstEntry := 0, lastEntry := 0, entryOffsets := [],
    file := [], closed := false }

/-- `Segment.Write`: writes the 4-byte little-endian length of `data`, then
`data`, as two file writes, each of which may fail per the fault
schedule.  On failure the bytes already written stay in the file (this is
exactly the Go behaviour: the length-write can succeed and the data-write
fail, leaving a dangling length prefix).  The Go `s.file == nil` guard is
unreachable in the model (`createSegment` always provides a file); a
closed file handle rejects the write. -/
def Segment.Write (s : Segment) (data : List Nat) (fs : List Bool) :
    Segment × List Bool × Option WalErr :=
  if s.closed then (s, fs, some .IOFailure)
  else
    match takeFault fs with
    | (true, fs1) => (s, fs1, some .IOFailure)
    | (false, fs1) =>
      match takeFault fs1 with
      | (true, fs2) =>
        ({ s with file := s.file ++ leBytes 4 data.length }, fs2, some .IOFailure)
      | (false, fs2) =>
        ({ s with file := s.file ++ leBytes 4 data.length ++ data }, fs2, none)

/-- `Segment.Sync`: flush to stable storage; may fail per the fault
schedule; never changes the file content. -/
def Segment.Sync (s : Segment) (fs : List Bool) : List Bool × Option WalErr :=
  if s.closed then (fs, some .IOFailure)
  else
    match takeFault fs with
    | (true, fs1) => (fs1, some .IOFailure)
    | (false, fs1) => (fs1, none)

/-- Modelled from the spec: `Segment.Size` (`size() -> bytes`) is not in the
source material.  The backing file's byte size; stat on a closed file
fails. -/
def Segment.Size (s : Segment) : Except WalErr Nat :=
  if s.closed then .error .IOFailure else .ok s.file.length

/-- `Size` with the error discarded, as at the Go call sites written
`size, _ := seg.Size()` (the zero value `0` stands in on error). -/
def Segment.SizeD (s : Segment) : Nat :=
  match s.Size with
  | .ok n => n
  | .error _ => 0

/-- Reading one frame out of a byte buffer at `off`: the pure core of
`Segment.ReadAt`.  Mirrors Go `os.File.ReadAt`, which returns `io.EOF`
whenever fewer bytes remain than requested — both for the 4 length bytes
and for the data bytes. -/
def readFrame (file : List Nat) (off : Nat) : Except WalErr (List Nat × Nat) :=
  if file.length < off + 4 then .error .EOF
  else
    let len := deBytes ((file.drop off).take 4)
    if file.length < off + 4 + len then .error .EOF
    else .ok ((file.drop (off + 4)).take len, off + 4 + len)

/-- `Segment.ReadAt`: frame at byte offset `off`, and the next offset. -/
def Segment.ReadAt (s : Segment) (off : Nat) : Except WalErr (List Nat × Nat) :=
  if s.closed then .error .IOFailure else readFrame s.file off

/-- Modelled from the spec: `Segment.TrackEntry`
(`trackEntry(index, offset)`, "index the just-written record") is not in
the source material.  Appends the record's byte offset to `entryOffsets`
and maintains the segment's record range, consistent with its uses in
`recoverSegment` and `Truncate` (offsets positionally indexed by
`index - firstEntry`). -/
def Segment.TrackEntry (s : Segment) (idx off : Nat) : Segment :=
  { s with entryOffsets := s.entryOffsets ++ [off],
           firstEntry := if s.firstEntry = 0 then idx else s.firstEntry,
           lastEntry := idx }

/-- Modelled from the spec: `Segment.ContainsIndex` is not in the source
material; per the data model a segment owns the record-index range
`[firstEntry, lastEntry]`. -/
def Segment.ContainsIndex (s : Segment) (idx : Nat) : Bool :=
  s.firstEntry ≤ idx && idx ≤ s.lastEntry

/-- `os.File.Truncate` to `n` bytes (call sites only shrink). -/
def Segment.truncFile (s : Segment) (n : Nat) : Segment :=
  { s with file := s.file.take n }

/-- `Segment.Close`: closes the file handle; the object stays reachable
through any pointer still naming it. -/
def Segment.closeSeg (s : Segment) : Segment :=
  { s with closed := true }

/-- Modelled from the spec: `Segment.GetEntryByIndex`
(`getEntryByIndex(index) -> bytes`, random access "O(1) given the offset
index") is not in the source material.  Resolves the record's byte offset
positionally in `entryOffsets` and reads the frame there. -/
def Segment.GetEntryByIndex (s : Segment) (idx : Nat) : Except WalErr (List Nat) :=
  if ¬ s.ContainsIndex idx then .error .IndexOutOfRange
  else
    match s.entryOffsets.get? (idx - s.firstEntry) with
    | none => .error .IndexOutOfRange
    | some off =>
      match s.ReadAt off with
      | .error e => .error e
      | .ok (data, _) => .ok data

/-- Transaction lifecycle states. -/
inductive TransactionState where
  | Pending
  | Committed
  | Aborted
  deriving DecidableEq

/-- A staged transaction (`walrus.Transaction`); the unused `Batch` field is
omitted. -/
structure Transaction where
  ID : Nat
  State : TransactionState
  Entries : List Entry
  StartTime : Nat
  Timeout : Nat
  deriving DecidableEq

/-- `Transaction.IsExpired`: lazily computed at access time against the
current instant `now` (`time.Since(t.StartTime) > t.Timeout`); a zero
timeout never expires. -/
def Transaction.IsExpired (t : Transaction) (now : Nat) : Bool :=
  if t.Timeout = 0 then false else now - t.StartTime > t.Timeout

/-- WAL lifecycle state. -/
inductive WState where
  | Initializing
  | Opened
  | Closed
  deriving DecidableEq

/-- WAL health status. -/
inductive WStatus where
  | OK
  | Corrupted
  deriving DecidableEq

/-- The configuration options the modelled operations consult
(`walrus.Config`; cache sizing, encoding choice and cleanup interval do
not affect the modelled control flow). -/
structure Config where
  segmentSize : Nat
  maxSegments : Nat
  syncAfterWrite : Bool
  MaxEntries : Nat
  deriving DecidableEq

/-- The first/last logical record index pair (`walrus.Cursor`). -/
structure Cursor where
  FirstIndex : Nat
  LastIndex : Nat
  deriving DecidableEq

/-- Modelled from the spec: `StartCursor` is not in the source material; a
fresh log's cursor is the zero cursor (the code tests
`cusror.FirstIndex == 0` to detect it). -/
def StartCursor : Cursor := { FirstIndex := 0, LastIndex := 0 }

/-- The WAL manager state (`walrus.WAL`).  See the module comment for the
object-store modelling of segment pointers. -/
structure Wal where
  state : WState
  status : WStatus
  cursor : Cursor
  config : Config
  store : List Segment
  segments : List Nat
  currentSeg : Option Nat
  transactions : List (Nat × Transaction)
  deriving DecidableEq

/-- First segment object with the given key in a store list. -/
def findSegBy : List Segment → Nat → Option Segment
  | [], _ => none
  | s :: r, id => if s.index = id then some s else findSegBy r id

/-- Dereference a segment key in the object store. -/
def Wal.lookupSeg (w : Wal) (id : Nat) : Option Segment :=
  findSegBy w.store id

/-- Write an updated segment object back to the store (replacement by key,
modelling in-place mutation through a pointer). -/
def Wal.putSeg (w : Wal) (s : Segment) : Wal :=
  { w with store := w.store.map (fun t => if t.index = s.index then s else t) }

/-- The segment object the `currentSegment` pointer names, if any. -/
def Wal.curSegment (w : Wal) : Option Segment :=
  w.currentSeg.bind w.lookupSeg

/-- Association-list lookup backing the in-memory transaction map. -/
def lookupTx : List (Nat × Transaction) → Nat → Option Transaction
  | [], _ => none
  | p :: r, id => if p.1 = id then some p.2 else lookupTx r id

/-- Association-list deletion backing `delete(w.transactions, txID)`. -/
def removeTx : List (Nat × Transaction) → Nat → List (Nat × Transaction)
  | [], _ => []
  | p :: r, id => if p.1 = id then removeTx r id else p :: removeTx r id

/-- Transaction-table lookup (`w.transactions[txID]`). -/
def Wal.getTx (w : Wal) (id : Nat) : Option Transaction :=
  lookupTx w.transactions id

/-- In-place update of a transaction object in the table. -/
def Wal.setTx (w : Wal) (id : Nat) (tx : Transaction) : Wal :=
  { w with transactions := w.transactions.map (fun p => if p.1 = id then (id, tx) else p) }

/-- `delete(w.transactions, txID)`. -/
def Wal.delTx (w : Wal) (id : Nat) : Wal :=
  { w with transactions := removeTx w.transactions id }

/-- `WAL.ensureSegmentCount` (the body of the retention step
`cleanupOldSegments` invoked by `rotateSegment`): closes and drops the
oldest segments until the count is within `maxSegments`. -/
def Wal.ensureSegmentCount (w : Wal) : Wal :=
  if w.segments.length ≤ w.config.maxSegments then w
  else
    let n := w.segments.length - w.config.maxSegments
    let removed := w.segments.take n
    { w with segments := w.segments.drop n,
             store := w.store.map (fun s => if removed.contains s.index then s.closeSeg else s) }

/-- The identifier `rotateSegment` gives a new segment:
`w.segments[len-1].index + 1`, or `1` for an empty list. -/
def Wal.nextSegId (w : Wal) : Nat :=
  match w.segments.getLast? with
  | some last => last + 1
  | none => 1

/-- The non-failing tail of `rotateSegment`: create the next segment, make
it current, apply retention. -/
def Wal.rotateFresh (w : Wal) : Wal :=
  let nid := w.nextSegId
  let w1 := { w with store := w.store ++ [createSegment nid],
                     segments := w.segments ++ [nid],
                     currentSeg := some nid }
  if w1.segments.length > w1.config.maxSegments then w1.ensureSegmentCount else w1

/-- The WAL after a rotation that triggers no retention: the fresh
segment is appended to the store and key list and made current. -/
def rotatedWal (w : Wal) : Wal :=
  { w with store := w.store ++ [createSegment w.nextSegId],
           segments := w.segments ++ [w.nextSegId],
           currentSeg := some w.nextSegId }

/-- `WAL.rotateSegment`: sync the current segment, create the next one,
make it current, then apply retention.  Fails only if the sync fails
(segment creation is modelled as infallible). -/
def Wal.rotateSegment (w : Wal) (fs : List Bool) : Wal × List Bool × Option WalErr :=
  match w.curSegment with
  | some cur =>
    let (fs1, serr) := cur.Sync fs
    match serr with
    | some e => (w, fs1, some e)
    | none => (w.rotateFresh, fs1, none)
  | none => (w.rotateFresh, fs, none)

/-- Modelled from the spec: `WAL.ensureSegment` is not in the source
material; it is called when `currentSegment == nil` and must provide a
writable segment ("a segment is created when the log is opened with no
segments").  Creates the next segment and makes it current; a no-op when
a current segment exists. -/
def Wal.ensureSegment (w : Wal) : Wal :=
  match w.currentSeg with
  | some _ => w
  | none =>
    let nid := w.nextSegId
    { w with store := w.store ++ [createSegment nid],
             segments := w.segments ++ [nid],
             currentSeg := some nid }

/-- The cursor update shared by a successful `Append` and `WriteBatch`:
`LastIndex` moves to the last index just written, `FirstIndex` is set on
first use. -/
def Wal.advanceCursor (w : Wal) (first last : Nat) : Wal :=
  { w with cursor :=
    { FirstIndex := if w.cursor.FirstIndex = 0 then first else w.cursor.FirstIndex,
      LastIndex := last } }

/-- Tail of `Append` after a successful segment write: track the record,
apply the sync policy, and on success advance the cursor and return the
index.  `w3` already holds the written (untracked) segment object. -/
def appendFinish (w3 : Wal) (cur4 : Segment) (idx : Nat) (fs3 : List Bool) :
    Wal × List Bool × Except WalErr Nat :=
  if w3.config.syncAfterWrite then
    match cur4.Sync fs3 with
    | (fs4, some e) => (w3.putSeg cur4, fs4, .error e)
    | (fs4, none) => ((w3.putSeg cur4).advanceCursor idx idx, fs4, .ok idx)
  else ((w3.putSeg cur4).advanceCursor idx idx, fs3, .ok idx)

/-- `Append` stage: encode with the assigned index and write the frame to
the current segment.  Note the source returns a write error without
truncating the segment file. -/
def appendWrite (w2 : Wal) (entry : Entry) (fs2 : List Bool) :
    Wal × List Bool × Except WalErr Nat :=
  match w2.curSegment with
  | none => (w2, fs2, .error .SegmentNotFound)
  | some cur2 =>
    match cur2.Write (encode { entry with Index := w2.cursor.LastIndex + 1 }) fs2 with
    | (cur3, fs3, some e) => (w2.putSeg cur3, fs3, .error e)
    | (cur3, fs3, none) =>
      appendFinish (w2.putSeg cur3)
        (cur3.TrackEntry (w2.cursor.LastIndex + 1) cur2.SizeD)
        (w2.cursor.LastIndex + 1) fs3

/-- `Append` stage: rotate first when the current segment's size has
already reached `segmentSize`. -/
def appendRotate (w1 : Wal) (size : Nat) (entry : Entry) (fs : List Bool) :
    Wal × List Bool × Except WalErr Nat :=
  if size ≥ w1.config.segmentSize then
    match w1.rotateSegment fs with
    | (w2, fs2, some e) => (w2, fs2, .error e)
    | (w2, fs2, none) => appendWrite w2 entry fs2
  else appendWrite w1 entry fs

/-- `Append` stage: stat the current segment. -/
def appendSized (w1 : Wal) (entry : Entry) (fs : List Bool) :
    Wal × List Bool × Except WalErr Nat :=
  match w1.curSegment with
  | none => (w1, fs, .error .SegmentNotFound)
  | some cur =>
    match cur.Size with
    | .error e => (w1, fs, .error e)
    | .ok size => appendRotate w1 size entry fs

/-- `WAL.Append` (the full version of the source, with rotation, sync
policy and cursor update).  Returns the updated WAL, the remaining fault
schedule, and the assigned index or the error. -/
def Wal.Append (w : Wal) (entry : Entry) (fs : List Bool) :
    Wal × List Bool × Except WalErr Nat :=
  if w.state = .Closed then (w, fs, .error .WALClosed)
  else appendSized w.ensureSegment entry fs

/-- One entry as `WriteBatch` prepares it: assigned index `lastIndex + 1`,
zero timestamp replaced with the current time. -/
def prepEntry (lastIndex now : Nat) (e : Entry) : Entry :=
  { e with Index := lastIndex + 1,
           Timestamp := if e.Timestamp = 0 then now else e.Timestamp }

/-- The index/timestamp assignment loop at the head of `WriteBatch`: the
`k`-th entry gets index `lastIndex + k + 1`, and a zero timestamp is
replaced with the current time. -/
def prepBatch (lastIndex now : Nat) : List Entry → List Entry
  | [] => []
  | e :: rest => prepEntry lastIndex now e :: prepBatch (lastIndex + 1) now rest

/-- The write loop of `WriteBatch`: write each prepared entry's frame at
the current end of the segment and track it; stop at the first write
failure (the caller then truncates the file back to the batch's start
offset). -/
def batchWriteLoop (seg : Segment) (es : List Entry) (fs : List Bool) :
    Segment × List Bool × Option WalErr :=
  match es with
  | [] => (seg, fs, none)
  | e :: rest =>
    match seg.Write (encode e) fs with
    | (seg1, fs1, some err) => (seg1, fs1, some err)
    | (seg1, fs1, none) => batchWriteLoop (seg1.TrackEntry e.Index seg.SizeD) rest fs1

/-- `WriteBatch` stage after the write loop: apply the sync policy; on a
sync failure truncate back to the batch's start offset; on success
commit the cursor to the assigned block. -/
def batchSealed (w1 : Wal) (cur1 : Segment) (indices : List Nat) (startOffset : Nat)
    (fs1 : List Bool) : Wal × List Bool × Except WalErr (List Nat) :=
  if w1.config.syncAfterWrite then
    match cur1.Sync fs1 with
    | (fs2, some e) => (w1.putSeg (cur1.truncFile startOffset), fs2, .error e)
    | (fs2, none) =>
      ((w1.putSeg cur1).advanceCursor (indices.headD 0) (indices.getLastD 0), fs2, .ok indices)
  else
    ((w1.putSeg cur1).advanceCursor (indices.headD 0) (indices.getLastD 0), fs1, .ok indices)

/-- `WriteBatch` stage: run the write loop over the prepared entries; any
write failure truncates the file back to `startOffset` and reports the
error. -/
def batchWrite (w1 : Wal) (cur : Segment) (prepped : List Entry) (startOffset : Nat)
    (fs : List Bool) : Wal × List Bool × Except WalErr (List Nat) :=
  match batchWriteLoop cur prepped fs with
  | (cur1, fs1, some err) => (w1.putSeg (cur1.truncFile startOffset), fs1, .error err)
  | (cur1, fs1, none) =>
    batchSealed w1 cur1 (prepped.map (fun e => e.Index)) startOffset fs1

/-- `WriteBatch` stage: resolve the current segment, assign the index
block and record the pre-batch file size. -/
def batchGo (w1 : Wal) (entries : List Entry) (now : Nat) (fs : List Bool) :
    Wal × List Bool × Except WalErr (List Nat) :=
  match w1.curSegment with
  | none => (w1, fs, .error .SegmentNotFound)
  | some cur =>
    batchWrite w1 cur (prepBatch w1.cursor.LastIndex now entries) cur.SizeD fs

/-- `WAL.WriteBatch`: assigns a contiguous index block, writes every frame
to the current segment, and on any write or sync failure truncates the
file back to the size recorded before the batch and reports the error;
the cursor advances only after a fully successful batch. -/
def Wal.WriteBatch (w : Wal) (entries : List Entry) (now : Nat) (fs : List Bool) :
    Wal × List Bool × Except WalErr (List Nat) :=
  if w.state = .Closed then (w, fs, .error .WALClosed)
  else if entries = [] then (w, fs, .ok [])
  else batchGo w.ensureSegment entries now fs

/-- The scan behind `findSegmentByIndex`: first key of `ids`, in order,
whose segment object's range contains the index. -/
def findContaining (store : List Segment) (idx : Nat) : List Nat → Option Segment
  | [] => none
  | id :: rest =>
    match findSegBy store id with
    | some s => if s.ContainsIndex idx then some s else findContaining store idx rest
    | none => findContaining store idx rest

/-- Modelled from the spec: `WAL.findSegmentByIndex` is not in the source
material ("resolves the owning segment by scanning segment ranges").
First segment of `w.segments`, in order, whose range contains the
index. -/
def Wal.findSegmentByIndex (w : Wal) (idx : Nat) : Option Segment :=
  findContaining w.store idx w.segments

/-- `WAL.Get`: bounds-check against the cursor, resolve the owning segment,
read and decode the record. -/
def Wal.Get (w : Wal) (idx : Nat) : Except WalErr Entry :=
  if w.state = .Closed then .error .WALClosed
  else if idx < w.cursor.FirstIndex ∨ idx > w.cursor.LastIndex then .error .IndexOutOfRange
  else
    match w.findSegmentByIndex idx with
    | none => .error .SegmentNotFound
    | some seg =>
      match seg.GetEntryByIndex idx with
      | .error e => .error e
      | .ok data => decode data

/-- The scan loop of `GetRange`: `count` consecutive indices starting at
`i`; an index owned by no segment is skipped (retention semantics), a
segment read or decode failure aborts the whole call. -/
def Wal.getRangeLoop (w : Wal) (i count : Nat) (acc : List Entry) :
    Except WalErr (List Entry) :=
  match count with
  | 0 => .ok acc.reverse
  | c + 1 =>
    match w.findSegmentByIndex i with
    | none => w.getRangeLoop (i + 1) c acc
    | some seg =>
      match seg.GetEntryByIndex i with
      | .error e => .error e
      | .ok data =>
        match decode data with
        | .error e => .error e
        | .ok ent => w.getRangeLoop (i + 1) c (ent :: acc)

/-- `WAL.GetRange`. -/
def Wal.GetRange (w : Wal) (start endIdx : Nat) : Except WalErr (List Entry) :=
  if w.state = .Closed then .error .WALClosed
  else if start > endIdx then .error .IndexOutOfRange
  else w.getRangeLoop start (endIdx + 1 - start) []

/-- The `len(seg.entryOffsets) - 1` bound of `Truncate`, computed as Go
does: `len` is a signed int converted to `uint64`, so an empty offset
list yields `2^64 - 1`, not `0`. -/
def goLenMinusOne (l : List Nat) : Nat :=
  if l.length = 0 then 2 ^ 64 - 1 else l.length - 1

/-- The downward segment scan of `WAL.Truncate`, over the *reversed*
`w.segments` key list (the Go loop runs from the last slice position to
the first, removing the last element each time it removes a segment).
Returns the updated store, the surviving keys still reversed, and
`some .IOFailure` standing for the index-out-of-range panic Go would hit
when a segment claims to contain the index but tracks no offset for its
successor (unreachable for well-formed segments). -/
def truncGo (index : Nat) (store : List Segment) :
    List Nat → List Segment × List Nat × Option WalErr
  | [] => (store, [], none)
  | id :: rest =>
    match findSegBy store id with
    | none => (store, id :: rest, some .SegmentNotFound)
    | some seg =>
      if seg.firstEntry > index then
        let store1 := store.map (fun s => if s.index = id then s.closeSeg else s)
        truncGo index store1 rest
      else if seg.ContainsIndex index then
        let localIdx := index - seg.firstEntry
        if localIdx < goLenMinusOne seg.entryOffsets then
          match seg.entryOffsets.get? (localIdx + 1) with
          | none => (store, id :: rest, some .IOFailure)
          | some nextOffset =>
            let seg1 := { seg with file := seg.file.take nextOffset,
                                   lastEntry := index,
                                   entryOffsets := seg.entryOffsets.take (localIdx + 1) }
            let store1 := store.map (fun s => if s.index = id then seg1 else s)
            (store1, id :: rest, none)
        else (store, id :: rest, none)
      else (store, id :: rest, none)

/-- The straddling segment after `Truncate i`: file cut at the byte
offset `off` of record `i + 1`, record range capped at `i`, offset index
trimmed. -/
def straddleSeg (cur : Segment) (i off : Nat) : Segment :=
  { cur with file := cur.file.take off, lastEntry := i,
             entryOffsets := cur.entryOffsets.take (i - cur.firstEntry + 1) }

/-- The WAL state `Truncate` assembles on success: new store, surviving
segment keys (reversed back), `lastIndex` forced to the target index. -/
def truncResult (w : Wal) (store1 : List Segment) (revIds : List Nat) (index : Nat) : Wal :=
  { w with store := store1, segments := revIds.reverse,
           cursor := { w.cursor with LastIndex := index } }

/-- `WAL.Truncate`: removes every segment wholly beyond `index`, truncates
the straddling segment at the byte offset of the first record after
`index`, and sets `lastIndex = index`.  The source never touches the
`currentSegment` pointer here, and always returns success (the only
failure the model reports stands for a Go panic). -/
def Wal.Truncate (w : Wal) (index : Nat) : Wal × Except WalErr Unit :=
  if w.state = .Closed then (w, .error .WALClosed)
  else
    match truncGo index w.store w.segments.reverse with
    | (store1, revIds, some e) =>
      ({ w with store := store1, segments := revIds.reverse }, .error e)
    | (store1, revIds, none) => (truncResult w store1 revIds index, .ok ())

/-- `WAL.AddToTransaction`: stages one entry under a pending, unexpired,
not-too-large transaction.  An expired transaction is marked `Aborted`
(but, as in the source, left in the table). -/
def Wal.AddToTransaction (w : Wal) (txID : Nat) (entry : Entry) (now : Nat) :
    Wal × Except WalErr Unit :=
  match w.getTx txID with
  | none => (w, .error .TransactionNotFound)
  | some tx =>
    if tx.State ≠ .Pending then (w, .error .TransactionNotPending)
    else if tx.IsExpired now then
      (w.setTx txID { tx with State := .Aborted }, .error .TransactionExpired)
    else if tx.Entries.length ≥ w.config.MaxEntries then (w, .error .TransactionTooLarge)
    else
      (w.setTx txID { tx with Entries := tx.Entries ++ [{ entry with TransactionID := txID }] },
       .ok ())

/-- `WAL.CommitTransaction`: re-validate pending/unexpired, mark
`Committed`, hand the staged entries to `WriteBatch`, then delete the
table entry regardless of the batch outcome and return the batch
result.  An expired transaction is marked `Aborted` and (as in the
source) left in the table. -/
def Wal.CommitTransaction (w : Wal) (txID : Nat) (now : Nat) (fs : List Bool) :
    Wal × List Bool × Except WalErr (List Nat) :=
  match w.getTx txID with
  | none => (w, fs, .error .TransactionNotFound)
  | some tx =>
    if tx.State ≠ .Pending then (w, fs, .error .TransactionNotPending)
    else if tx.IsExpired now then
      (w.setTx txID { tx with State := .Aborted }, fs, .error .TransactionExpired)
    else
      let w1 := w.setTx txID { tx with State := .Committed }
      let (w2, fs2, r) := w1.WriteBatch tx.Entries now fs
      (w2.delTx txID, fs2, r)

/-- `WAL.RollbackTransaction`: valid only while pending; marks `Aborted`
and removes the table entry. -/
def Wal.RollbackTransaction (w : Wal) (txID : Nat) : Wal × Except WalErr Unit :=
  match w.getTx txID with
  | none => (w, .error .TransactionNotFound)
  | some tx =>
    if tx.State ≠ .Pending then (w, .error .TransactionNotPending)
    else (w.delTx txID, .ok ())

/-- One pass of the expiry sweep over the table: drop (and count) the
entries that are still `Pending` and have expired. -/
def sweepTxs (now : Nat) : List (Nat × Transaction) → List (Nat × Transaction) × Nat
  | [] => ([], 0)
  | p :: r =>
    if p.2.IsExpired now ∧ p.2.State = .Pending
    then ((sweepTxs now r).1, (sweepTxs now r).2 + 1)
    else (p :: (sweepTxs now r).1, (sweepTxs now r).2)

/-- `WAL.CleanupExpiredTransactions` (the expiry sweep): removes every
table entry that is still `Pending` and has expired, returning the count
removed.  (The source sets the removed object's state to `Aborted` just
before deleting it, which is unobservable once it leaves the table.) -/
def Wal.CleanupExpiredTransactions (w : Wal) (now : Nat) : Wal × Nat :=
  ({ w with transactions := (sweepTxs now w.transactions).1 },
   (sweepTxs now w.transactions).2)

/-- `WAL.handleCorruptedEntry`: truncate the segment's file at the last
good offset (file truncation is modelled as infallible, so the `nil`
return of the source corresponds to plain success). -/
def Wal.handleCorruptedEntry (seg : Segment) (offset : Nat) : Segment :=
  seg.truncFile offset

/-- The scan loop of `recoverSegment` over a fixed byte buffer `file`
(the segment's file content, which scanning never changes): read one
frame at a time; `io.EOF` is treated as clean end of data (note this is
also what a frame with missing trailing bytes produces); any other read
error or a decode failure truncates the file at the current offset and
stops; a good record is tracked and advances the cursor.  Structural
recursion on `fuel`; every step either stops or advances the offset by
at least 4 bytes, so `file.length + 1` steps always suffice (the
zero-fuel fallback is unreachable when so called). -/
def scanFrames (file : List Nat) : Nat → Cursor → Segment → Nat → Cursor × Segment
  | 0, c, seg, _ => (c, seg)
  | fuel + 1, c, seg, offset =>
    match readFrame file offset with
    | .error e =>
      if e = .EOF then (c, seg)
      else (c, Wal.handleCorruptedEntry seg offset)
    | .ok (data, nextOffset) =>
      match decode data with
      | .error _ => (c, Wal.handleCorruptedEntry seg offset)
      | .ok entry =>
        let seg1 := seg.TrackEntry entry.Index offset
        let c1 : Cursor :=
          { FirstIndex := if c.FirstIndex = 0 then entry.Index else c.FirstIndex,
            LastIndex := entry.Index }
        scanFrames file fuel c1 seg1 nextOffset

/-- `WAL.recoverSegment`: scan one segment from offset 0, rebuilding its
offset index and the cursor, truncating trailing corruption.  Returns
the WAL with the updated cursor and store together with the updated
segment object. -/
def Wal.recoverSegment (w : Wal) (seg : Segment) : Wal × Segment :=
  let (c1, seg1) := scanFrames seg.file (seg.file.length + 1) w.cursor seg 0
  (({ w with cursor := c1 } : Wal).putSeg seg1, seg1)

/-- Modelled from the spec: the `Open` entry point is not in the source
material.  The state a fresh log directory yields after `open`: no
segments, zero cursor, empty transaction table, state `Open`,
status `OK`. -/
def openFresh (cfg : Config) : Wal :=
  { state := .Opened, status := .OK, cursor := StartCursor, config := cfg,
    store := [], segments := [], currentSeg := none, transactions := [] }

/-- The entry `decode` recovers from `encode e`: every fixed-width field
comes back reduced to its Go machine width, the payload exactly. -/
def truncEntry (e : Entry) : Entry :=
  { Index := e.Index % 2 ^ 64, Term := e.Term % 2 ^ 64, Data := e.Data,
    Checksum := e.Checksum % 2 ^ 32, Timestamp := e.Timestamp % 2 ^ 64,
    TransactionID := e.TransactionID % 2 ^ 64 }

/-- After the write loop has processed at least its first entry `e0`
against base segment `seg`, the mutated segment `seg1` claims `e0.Index`
(range extended, offset of the first written frame recorded at the next
free slot, pointing at the old end of the file). -/
def trackedHead (seg seg1 : Segment) (e0 : Entry) : Prop :=
  seg1.firstEntry = (if seg.firstEntry = 0 then e0.Index else seg.firstEntry) ∧
  e0.Index ≤ seg1.lastEntry ∧
  seg1.entryOffsets.get? seg.entryOffsets.length = some seg.file.length

/-! ## Concrete sample states used by witnesses and counterexamples -/

/-- A roomy configuration: no rotation or retention pressure, no sync. -/
def cfg0 : Config :=
  { segmentSize := 1000, maxSegments := 100, syncAfterWrite := false, MaxEntries := 10 }

/-- A configuration with a 50-byte rotation threshold. -/
def cfgC6 : Config :=
  { segmentSize := 50, maxSegments := 100, syncAfterWrite := false, MaxEntries := 10 }

/-- A small concrete entry (encodes to 38 bytes, a 42-byte frame). -/
def e0 : Entry :=
  { Index := 0, Term := 1, Data := [10, 20], Checksum := 7, Timestamp := 3,
    TransactionID := 0 }

/-- A concrete entry with a 30-byte payload (a 70-byte frame). -/
def eBig : Entry :=
  { e0 with Data := List.replicate 30 1 }

/-- The frame of the record with index 1. -/
def fr1 : List Nat := frameOf (encode { e0 with Index := 1 })

/-- The frame of the record with index 2. -/
def fr2 : List Nat := frameOf (encode { e0 with Index := 2 })

/-- A fresh log after one successful `Append` of `e0` (record 1, 42-byte
segment file). -/
def wOne : Wal := ((openFresh cfg0).Append e0 []).1

/-- A segment file whose trailing frame is cut 3 bytes short
(record 1 complete, record 2 torn). -/
def segTorn : Segment :=
  { createSegment 5 with file := fr1 ++ fr2.take (fr2.length - 3) }

/-- A segment file whose trailing frame is complete but whose payload is
malformed (3 bytes, too short for any record). -/
def segBad : Segment :=
  { createSegment 5 with file := fr1 ++ frameOf [1, 2, 3] }

/-- A pending transaction with id 7, started at instant 0, 5-unit
timeout. -/
def txP : Transaction :=
  { ID := 7, State := .Pending, Entries := [{ e0 with Timestamp := 0 }],
    StartTime := 0, Timeout := 5 }

/-- An open WAL holding only the pending transaction `txP`. -/
def wTx : Wal := { openFresh cfg0 with transactions := [(7, txP)] }

/-- `wTx` right after the expiry path of `AddToTransaction` fired at
instant 100. -/
def wTxAborted : Wal := (wTx.AddToTransaction 7 e0 100).1

/-- First segment of the two-segment log `wTwoSegs`: records 1-2. -/
def seg1Two : Segment :=
  { index := 1, firstEntry := 1, lastEntry := 2, entryOffsets := [0, 42],
    file := fr1 ++ fr2, closed := false }

/-- Second segment of the two-segment log `wTwoSegs`: record 3, the
current segment. -/
def seg2Two : Segment :=
  { index := 2, firstEntry := 3, lastEntry := 3, entryOffsets := [0],
    file := frameOf (encode { e0 with Index := 3 }), closed := false }

/-- An open log with records 1-3 spread over two segments, the second
current. -/
def wTwoSegs : Wal :=
  { state := .Opened, status := .OK, cursor := ⟨1, 3⟩, config := cfg0,
    store := [seg1Two, seg2Two], segments := [1, 2], currentSeg := some 2,
    transactions := [] }

/-- A single current segment holding records 1-2. -/
def segTwoRec : Segment :=
  { index := 1, firstEntry := 1, lastEntry := 2, entryOffsets := [0, 42],
    file := fr1 ++ fr2, closed := false }

/-- An open log with records 1-2 in one current segment. -/
def wTwoRec : Wal :=
  { state := .Opened, status := .OK, cursor := ⟨1, 2⟩, config := cfg0,
    store := [segTwoRec], segments := [1], currentSeg := some 1,
    transactions := [] }

/-- The log `wTwoRec` with the pending transaction `txP` staged (its one
entry carries a zero timestamp). -/
def wTxSeg : Wal := { wTwoRec with transactions := [(7, txP)] }

/-! ## Basic facts about the byte encoding -/

theorem leBytes_length (k n : Nat) : (leBytes k n).length = k := by
  induction k generalizing n with
  | zero => rfl
  | succ k ih => simp [leBytes, ih]

theorem deBytes_leBytes (k n : Nat) : deBytes (leBytes k n) = n % 256 ^ k := by
  induction k generalizing n with
  | zero => simp [leBytes, deBytes, Nat.mod_one]
  | succ k ih =>
    rw [leBytes, deBytes, ih]
    have h256 : (256 : Nat) ^ (k + 1) = 256 * 256 ^ k := by ring
    rw [h256, Nat.mod_mul]
    generalize n / 256 % 256 ^ k = m
    omega

theorem encode_length (e : Entry) : (encode e).length = 36 + e.Data.length := by
  simp [encode, leBytes_length]
  omega

theorem frameOf_length (bs : List Nat) : (frameOf bs).length = 4 + bs.length := by
  simp [frameOf, leBytes_length]

theorem decode_encode (e : Entry) : decode (encode e) = .ok (truncEntry e) := by
  have hlen : (encode e).length = 36 + e.Data.length := encode_length e
  have hpow64 : (256 : Nat) ^ 8 = 2 ^ 64 := by norm_num
  have hpow32 : (256 : Nat) ^ 4 = 2 ^ 32 := by norm_num
  have hIdx : (encode e).take 8 = leBytes 8 e.Index := by
    rw [encode, List.append_assoc, List.append_assoc, List.append_assoc, List.append_assoc]
    exact List.take_left' (leBytes_length 8 e.Index)
  have hd8 : (encode e).drop 8 =
      leBytes 8 e.Term ++ (leBytes 8 e.Timestamp ++ (leBytes 8 e.TransactionID ++
        (leBytes 4 e.Checksum ++ e.Data))) := by
    rw [encode, List.append_assoc, List.append_assoc, List.append_assoc, List.append_assoc]
    exact List.drop_left' (leBytes_length 8 e.Index)
  have hTerm : ((encode e).drop 8).take 8 = leBytes 8 e.Term := by
    rw [hd8]; exact List.take_left' (leBytes_length 8 e.Term)
  have hd16 : (encode e).drop 16 =
      leBytes 8 e.Timestamp ++ (leBytes 8 e.TransactionID ++
        (leBytes 4 e.Checksum ++ e.Data)) := by
    have : (encode e).drop 16 = ((encode e).drop 8).drop 8 := by
      rw [List.drop_drop]
    rw [this, hd8]
    exact List.drop_left' (leBytes_length 8 e.Term)
  have hTs : ((encode e).drop 16).take 8 = leBytes 8 e.Timestamp := by
    rw [hd16]; exact List.take_left' (leBytes_length 8 e.Timestamp)
  have hd24 : (encode e).drop 24 =
      leBytes 8 e.TransactionID ++ (leBytes 4 e.Checksum ++ e.Data) := by
    have : (encode e).drop 24 = ((encode e).drop 16).drop 8 := by
      rw [List.drop_drop]
    rw [this, hd16]
    exact List.drop_left' (leBytes_length 8 e.Timestamp)
  have hTx : ((encode e).drop 24).take 8 = leBytes 8 e.TransactionID := by
    rw [hd24]; exact List.take_left' (leBytes_length 8 e.TransactionID)
  have hd32 : (encode e).drop 32 = leBytes 4 e.Checksum ++ e.Data := by
    have : (encode e).drop 32 = ((encode e).drop 24).drop 8 := by
      rw [List.drop_drop]
    rw [this, hd24]
    exact List.drop_left' (leBytes_length 8 e.TransactionID)
  have hCk : ((encode e).drop 32).take 4 = leBytes 4 e.Checksum := by
    rw [hd32]; exact List.take_left' (leBytes_length 4 e.Checksum)
  have hData : (encode e).drop 36 = e.Data := by
    have : (encode e).drop 36 = ((encode e).drop 32).drop 4 := by
      rw [List.drop_drop]
    rw [this, hd32]
    exact List.drop_left' (leBytes_length 4 e.Checksum)
  unfold decode
  rw [if_neg (by omega)]
  rw [hIdx, hTerm, hTs, hTx, hCk, hData,
    deBytes_leBytes, deBytes_leBytes, deBytes_leBytes, deBytes_leBytes, deBytes_leBytes,
    hpow64, hpow32]
  rfl

/-- Reading at the start of a frame embedded after a `pre` of known length
yields exactly the framed bytes and the offset just past the frame. -/
theorem readFrame_append (pre d suf : List Nat) (h : d.length < 2 ^ 32) :
    readFrame (pre ++ (frameOf d ++ suf)) pre.length =
      .ok (d, pre.length + 4 + d.length) := by
  have hpow32 : (256 : Nat) ^ 4 = 2 ^ 32 := by norm_num
  have hfile : pre ++ (frameOf d ++ suf) =
      pre ++ (leBytes 4 d.length ++ (d ++ suf)) := by
    simp [frameOf, List.append_assoc]
  have hlen : (pre ++ (frameOf d ++ suf)).length =
      pre.length + (4 + (d.length + suf.length)) := by
    simp [frameOf_length]; omega
  have hdropPre : (pre ++ (frameOf d ++ suf)).drop pre.length =
      leBytes 4 d.length ++ (d ++ suf) := by
    rw [hfile]; exact List.drop_left' rfl
  have htake4 : ((pre ++ (frameOf d ++ suf)).drop pre.length).take 4 =
      leBytes 4 d.length := by
    rw [hdropPre]; exact List.take_left' (leBytes_length 4 d.length)
  have hlenval : deBytes (((pre ++ (frameOf d ++ suf)).drop pre.length).take 4) = d.length := by
    rw [htake4, deBytes_leBytes, hpow32, Nat.mod_eq_of_lt h]
  have hdrop4 : (pre ++ (frameOf d ++ suf)).drop (pre.length + 4) = d ++ suf := by
    have hsplit : pre ++ (frameOf d ++ suf) =
        (pre ++ leBytes 4 d.length) ++ (d ++ suf) := by
      rw [hfile]; simp [List.append_assoc]
    rw [hsplit]
    exact List.drop_left' (by simp [leBytes_length])
  unfold readFrame
  rw [if_neg (by omega)]
  rw [hlenval, if_neg (by omega), hdrop4, List.take_left' rfl]

/-! ## Store and transaction-table lemmas -/

theorem findSegBy_replace_self (l : List Segment) (s old : Segment)
    (h : findSegBy l s.index = some old) :
    findSegBy (l.map fun t => if t.index = s.index then s else t) s.index = some s := by
  induction l with
  | nil => simp [findSegBy] at h
  | cons a l ih =>
    by_cases ha : a.index = s.index
    · simp [findSegBy, ha]
    · rw [findSegBy, if_neg ha] at h
      simp only [List.map_cons, if_neg ha]
      rw [findSegBy, if_neg ha]
      exact ih h

theorem findSegBy_replace_ne (l : List Segment) (s : Segment) (id : Nat)
    (h : id ≠ s.index) :
    findSegBy (l.map fun t => if t.index = s.index then s else t) id =
      findSegBy l id := by
  induction l with
  | nil => rfl
  | cons a l ih =>
    by_cases ha : a.index = s.index
    · simp only [List.map_cons, if_pos ha]
      rw [findSegBy, if_neg (fun hc => h hc.symm), findSegBy, if_neg (ha ▸ fun hc => h hc.symm)]
      exact ih
    · simp only [List.map_cons, if_neg ha]
      by_cases hid : a.index = id
      · rw [findSegBy, if_pos hid, findSegBy, if_pos hid]
      · rw [findSegBy, if_neg hid, findSegBy, if_neg hid]
        exact ih

theorem lookupSeg_putSeg_self (w : Wal) (s old : Segment)
    (h : w.lookupSeg s.index = some old) : (w.putSeg s).lookupSeg s.index = some s :=
  findSegBy_replace_self w.store s old h

theorem lookupSeg_putSeg_ne (w : Wal) (s : Segment) (id : Nat) (h : id ≠ s.index) :
    (w.putSeg s).lookupSeg id = w.lookupSeg id :=
  findSegBy_replace_ne w.store s id h

theorem lookupSeg_putSeg_eq (w : Wal) (s old : Segment) (id : Nat)
    (hid : s.index = id) (h : w.lookupSeg id = some old) :
    (w.putSeg s).lookupSeg id = some s := by
  subst hid
  exact lookupSeg_putSeg_self w s old h

theorem putSeg_transactions (w : Wal) (s : Segment) :
    (w.putSeg s).transactions = w.transactions := rfl

theorem putSeg_cursor (w : Wal) (s : Segment) : (w.putSeg s).cursor = w.cursor := rfl

theorem putSeg_state (w : Wal) (s : Segment) : (w.putSeg s).state = w.state := rfl

theorem putSeg_segments (w : Wal) (s : Segment) : (w.putSeg s).segments = w.segments := rfl

theorem putSeg_currentSeg (w : Wal) (s : Segment) : (w.putSeg s).currentSeg = w.currentSeg := rfl

/-- `rotateFresh` never touches the cursor, state, transactions or
configuration. -/
theorem rotateFresh_fields (u : Wal) :
    (u.rotateFresh).cursor = u.cursor ∧ (u.rotateFresh).state = u.state ∧
    (u.rotateFresh).transactions = u.transactions ∧ (u.rotateFresh).config = u.config := by
  refine ⟨?_, ?_, ?_, ?_⟩ <;>
    (simp only [Wal.rotateFresh, Wal.ensureSegmentCount]
     split
     · split <;> rfl
     · rfl)

/-- `ensureSegment` never touches the cursor, state, transactions or
configuration. -/
theorem ensureSegment_fields (u : Wal) :
    (u.ensureSegment).cursor = u.cursor ∧ (u.ensureSegment).state = u.state ∧
    (u.ensureSegment).transactions = u.transactions ∧
    (u.ensureSegment).config = u.config := by
  unfold Wal.ensureSegment
  cases u.currentSeg <;> simp

/-- `rotateSegment` never touches the cursor, state, transactions or
configuration. -/
theorem rotateSegment_fields (u v : Wal) (gs gs' : List Bool) (err : Option WalErr)
    (hr : u.rotateSegment gs = (v, gs', err)) :
    v.cursor = u.cursor ∧ v.state = u.state ∧ v.transactions = u.transactions ∧
    v.config = u.config := by
  have hfresh := rotateFresh_fields u
  unfold Wal.rotateSegment at hr
  split at hr
  · rename_i cur hcur
    rcases htf : cur.Sync gs with ⟨gs1, serr⟩
    rw [htf] at hr
    match serr, hr with
    | some er, hr =>
      simp only [Prod.mk.injEq] at hr
      obtain ⟨h1, _, _⟩ := hr
      subst h1
      exact ⟨rfl, rfl, rfl, rfl⟩
    | none, hr =>
      simp only [Prod.mk.injEq] at hr
      obtain ⟨h1, _, _⟩ := hr
      subst h1
      exact hfresh
  · simp only [Prod.mk.injEq] at hr
    obtain ⟨h1, _, _⟩ := hr
    subst h1
    exact hfresh

/-- `appendFinish` on success reports exactly the index it was given and
moves the cursor there, leaving state, transactions and configuration
untouched. -/
theorem appendFinish_ok (w3 : Wal) (cur4 : Segment) (idx : Nat) (fs3 fs' : List Bool)
    (w' : Wal) (i : Nat) (heq : appendFinish w3 cur4 idx fs3 = (w', fs', .ok i)) :
    i = idx ∧
    w'.cursor = ⟨if w3.cursor.FirstIndex = 0 then idx else w3.cursor.FirstIndex, idx⟩ ∧
    w'.state = w3.state ∧ w'.transactions = w3.transactions ∧ w'.config = w3.config := by
  unfold appendFinish at heq
  split at heq
  · split at heq
    · simp at heq
    · rename_i fs4 hsync
      simp only [Prod.mk.injEq, Except.ok.injEq] at heq
      obtain ⟨hw', _, hi⟩ := heq
      subst hi
      exact ⟨rfl, by rw [← hw']; rfl, by rw [← hw']; rfl, by rw [← hw']; rfl, by rw [← hw']; rfl⟩
  · simp only [Prod.mk.injEq, Except.ok.injEq] at heq
    obtain ⟨hw', _, hi⟩ := heq
    subst hi
    exact ⟨rfl, by rw [← hw']; rfl, by rw [← hw']; rfl, by rw [← hw']; rfl, by rw [← hw']; rfl⟩

/-- `appendWrite` on success reports exactly `lastIndex + 1` and moves the
cursor there, leaving state, transactions and configuration untouched. -/
theorem appendWrite_ok (w2 : Wal) (e : Entry) (fs2 fs' : List Bool) (w' : Wal) (i : Nat)
    (heq : appendWrite w2 e fs2 = (w', fs', .ok i)) :
    i = w2.cursor.LastIndex + 1 ∧
    w'.cursor = ⟨if w2.cursor.FirstIndex = 0 then i else w2.cursor.FirstIndex, i⟩ ∧
    w'.state = w2.state ∧ w'.transactions = w2.transactions ∧ w'.config = w2.config := by
  unfold appendWrite at heq
  split at heq
  · simp at heq
  · rename_i cur2 hcur2
    split at heq
    · simp at heq
    · rename_i cur3 fs3 hwr
      have h := appendFinish_ok _ _ _ _ _ _ _ heq
      obtain ⟨hi, hcur, hst, htx, hcf⟩ := h
      exact ⟨hi, by rw [hcur, hi]; rfl, by rw [hst]; rfl, by rw [htx]; rfl, by rw [hcf]; rfl⟩

/-- `appendRotate` on success reports exactly `lastIndex + 1` of the WAL
it started from and moves the cursor there (rotation does not move the
cursor). -/
theorem appendRotate_ok (w1 : Wal) (size : Nat) (e : Entry) (fs fs' : List Bool)
    (w' : Wal) (i : Nat) (heq : appendRotate w1 size e fs = (w', fs', .ok i)) :
    i = w1.cursor.LastIndex + 1 ∧
    w'.cursor = ⟨if w1.cursor.FirstIndex = 0 then i else w1.cursor.FirstIndex, i⟩ ∧
    w'.state = w1.state ∧ w'.transactions = w1.transactions ∧ w'.config = w1.config := by
  unfold appendRotate at heq
  split at heq
  · split at heq
    · simp at heq
    · rename_i w2 fs2 hro
      obtain ⟨r1, r2, r3, r4⟩ := rotateSegment_fields w1 w2 fs fs2 none hro
      obtain ⟨hi, hcur, hst, htx, hcf⟩ := appendWrite_ok w2 e fs2 fs' w' i heq
      exact ⟨by rw [hi, r1], by rw [hcur, r1], by rw [hst, r2], by rw [htx, r3],
             by rw [hcf, r4]⟩
  · exact appendWrite_ok w1 e fs fs' w' i heq

/-- Whatever `Append` does, a success reports exactly `lastIndex + 1` and
moves the cursor there; state, configuration and the transaction table
are untouched. -/
theorem Append_ok_spec (w : Wal) (e : Entry) (fs fs' : List Bool) (w' : Wal) (i : Nat)
    (heq : w.Append e fs = (w', fs', .ok i)) :
    i = w.cursor.LastIndex + 1 ∧
    w'.cursor = ⟨if w.cursor.FirstIndex = 0 then i else w.cursor.FirstIndex, i⟩ ∧
    w'.state = w.state ∧ w'.transactions = w.transactions ∧ w'.config = w.config := by
  obtain ⟨e1, e2, e3, e4⟩ := ensureSegment_fields w
  unfold Wal.Append at heq
  split at heq
  · simp at heq
  · rename_i hopen
    unfold appendSized at heq
    split at heq
    · simp at heq
    · rename_i cur hcur
      split at heq
      · simp at heq
      · rename_i size hsize
        obtain ⟨hi, hcur2, hst, htx, hcf⟩ := appendRotate_ok _ _ _ _ _ _ _ heq
        exact ⟨by rw [hi, e1], by rw [hcur2, e1], by rw [hst, e2], by rw [htx, e3],
               by rw [hcf, e4]⟩

/-! ## Claim C3 -/

/-- Claim C3: every successful `Append` returns exactly one more than the
cursor's `lastIndex` before the call and advances `lastIndex` to the
returned index; in particular on a fresh log (`lastIndex = 0`) the first
successful append returns 1, and consecutive successes return contiguous,
strictly increasing indices with no gaps. -/
theorem c3_append_indices_contiguous_from_one (w : Wal) (e : Entry)
    (fs fs' : List Bool) (w' : Wal) (i : Nat)
    (heq : w.Append e fs = (w', fs', .ok i)) :
    i = w.cursor.LastIndex + 1 ∧ w'.cursor.LastIndex = i ∧
    (w.cursor.LastIndex = 0 → i = 1) := by
  obtain ⟨h1, h2, _⟩ := Append_ok_spec w e fs fs' w' i heq
  refine ⟨h1, by rw [h2], fun h0 => by omega⟩

/-- Witness for C3: on the fresh log `openFresh cfg0`, `Append` succeeds
and the theorem instantiates with index 1. -/
theorem c3_witness :
    (openFresh cfg0).Append e0 [] =
      (((openFresh cfg0).Append e0 []).1, [], .ok 1) ∧
    (1 = (openFresh cfg0).cursor.LastIndex + 1 ∧
      ((openFresh cfg0).Append e0 []).1.cursor.LastIndex = 1 ∧
      ((openFresh cfg0).cursor.LastIndex = 0 → 1 = 1)) :=
  ⟨by decide,
   c3_append_indices_contiguous_from_one (openFresh cfg0) e0 []
     [] ((openFresh cfg0).Append e0 []).1 1 (by decide)⟩

/-! ## Transaction-table lemmas -/

theorem lookupTx_removeTx (l : List (Nat × Transaction)) (id : Nat) :
    lookupTx (removeTx l id) id = none := by
  induction l with
  | nil => rfl
  | cons p r ih =>
    by_cases hp : p.1 = id
    · rw [removeTx, if_pos hp]; exact ih
    · rw [removeTx, if_neg hp, lookupTx, if_neg hp]; exact ih

theorem lookupTx_setTx_self (l : List (Nat × Transaction)) (id : Nat)
    (tx tx0 : Transaction) (h : lookupTx l id = some tx0) :
    lookupTx (l.map fun p => if p.1 = id then (id, tx) else p) id = some tx := by
  induction l with
  | nil => simp [lookupTx] at h
  | cons p r ih =>
    by_cases hp : p.1 = id
    · simp only [List.map_cons, if_pos hp]
      rw [lookupTx, if_pos rfl]
    · rw [lookupTx, if_neg hp] at h
      simp only [List.map_cons, if_neg hp]
      rw [lookupTx, if_neg hp]
      exact ih h

theorem setTx_map_all (l : List (Nat × Transaction)) (id : Nat) (tx : Transaction) :
    ∀ p ∈ l.map (fun p => if p.1 = id then (id, tx) else p), p.1 = id → p.2 = tx := by
  intro p hp hid
  rcases List.mem_map.mp hp with ⟨q, _, hq⟩
  by_cases h : q.1 = id
  · rw [if_pos h] at hq; rw [← hq]
  · rw [if_neg h] at hq; rw [← hq] at hid; exact absurd hid h

theorem lookupTx_sweep_none (l : List (Nat × Transaction)) (id : Nat) (now : Nat)
    (hall : ∀ p ∈ l, p.1 = id → p.2.IsExpired now = true ∧ p.2.State = .Pending) :
    lookupTx (sweepTxs now l).1 id = none := by
  induction l with
  | nil => rfl
  | cons p r ih =>
    have ihr := ih (fun q hq => hall q (List.mem_cons_of_mem p hq))
    rw [sweepTxs]
    by_cases hc : p.2.IsExpired now = true ∧ p.2.State = .Pending
    · rw [if_pos hc]
      exact ihr
    · rw [if_neg hc]
      by_cases hp : p.1 = id
      · exact absurd (hall p (List.mem_cons_self p r) hp) hc
      · rw [lookupTx, if_neg hp]
        exact ihr

theorem lookupTx_sweep_keep (l : List (Nat × Transaction)) (id : Nat) (now : Nat)
    (tx : Transaction) (h : lookupTx l id = some tx)
    (hk : ¬ (tx.IsExpired now = true ∧ tx.State = .Pending)) :
    lookupTx (sweepTxs now l).1 id = some tx := by
  induction l with
  | nil => simp [lookupTx] at h
  | cons p r ih =>
    rw [sweepTxs]
    by_cases hp : p.1 = id
    · rw [lookupTx, if_pos hp] at h
      injection h with h
      subst h
      rw [if_neg hk, lookupTx, if_pos hp]
    · rw [lookupTx, if_neg hp] at h
      by_cases hc : p.2.IsExpired now = true ∧ p.2.State = .Pending
      · rw [if_pos hc]
        exact ih h
      · rw [if_neg hc, lookupTx, if_neg hp]
        exact ih h

/-! ## `WriteBatch` leaves the transaction table alone -/

theorem batchSealed_transactions (w1 : Wal) (cur1 : Segment) (indices : List Nat)
    (startOffset : Nat) (fs1 : List Bool) :
    (batchSealed w1 cur1 indices startOffset fs1).1.transactions = w1.transactions := by
  unfold batchSealed
  split
  · split <;> rfl
  · rfl

theorem batchWrite_transactions (w1 : Wal) (cur : Segment) (prepped : List Entry)
    (startOffset : Nat) (fs : List Bool) :
    (batchWrite w1 cur prepped startOffset fs).1.transactions = w1.transactions := by
  unfold batchWrite
  split
  · rfl
  · exact batchSealed_transactions _ _ _ _ _

theorem batchGo_transactions (w1 : Wal) (entries : List Entry) (now : Nat)
    (fs : List Bool) :
    (batchGo w1 entries now fs).1.transactions = w1.transactions := by
  unfold batchGo
  split
  · rfl
  · exact batchWrite_transactions _ _ _ _ _

theorem WriteBatch_transactions (w : Wal) (entries : List Entry) (now : Nat)
    (fs : List Bool) :
    (w.WriteBatch entries now fs).1.transactions = w.transactions := by
  unfold Wal.WriteBatch
  split
  · rfl
  · split
    · rfl
    · rw [batchGo_transactions]
      exact (ensureSegment_fields w).2.2.1

/-! ## Branch behaviour of the transaction operations -/

theorem commit_notfound (w : Wal) (id now : Nat) (fs : List Bool)
    (h : w.getTx id = none) :
    w.CommitTransaction id now fs = (w, fs, .error .TransactionNotFound) := by
  unfold Wal.CommitTransaction
  rw [Wal.getTx] at h
  simp only [Wal.getTx, h]

theorem commit_notpending (w : Wal) (id now : Nat) (fs : List Bool) (tx : Transaction)
    (h : w.getTx id = some tx) (hnp : tx.State ≠ .Pending) :
    w.CommitTransaction id now fs = (w, fs, .error .TransactionNotPending) := by
  unfold Wal.CommitTransaction
  rw [Wal.getTx] at h
  simp only [Wal.getTx, h]
  rw [if_pos hnp]

theorem commit_expired (w : Wal) (id now : Nat) (fs : List Bool) (tx : Transaction)
    (h : w.getTx id = some tx) (hp : tx.State = .Pending)
    (hexp : tx.IsExpired now = true) :
    w.CommitTransaction id now fs =
      (w.setTx id { tx with State := .Aborted }, fs, .error .TransactionExpired) := by
  unfold Wal.CommitTransaction
  rw [Wal.getTx] at h
  simp only [Wal.getTx, h]
  rw [if_neg (by simp [hp]), if_pos hexp]

theorem add_notpending (w : Wal) (id : Nat) (e : Entry) (now : Nat) (tx : Transaction)
    (h : w.getTx id = some tx) (hnp : tx.State ≠ .Pending) :
    w.AddToTransaction id e now = (w, .error .TransactionNotPending) := by
  unfold Wal.AddToTransaction
  rw [Wal.getTx] at h
  simp only [Wal.getTx, h]
  rw [if_pos hnp]

theorem add_expired (w : Wal) (id : Nat) (e : Entry) (now : Nat) (tx : Transaction)
    (h : w.getTx id = some tx) (hp : tx.State = .Pending)
    (hexp : tx.IsExpired now = true) :
    w.AddToTransaction id e now =
      (w.setTx id { tx with State := .Aborted }, .error .TransactionExpired) := by
  unfold Wal.AddToTransaction
  rw [Wal.getTx] at h
  simp only [Wal.getTx, h]
  rw [if_neg (by simp [hp]), if_pos hexp]

theorem rollback_notpending (w : Wal) (id : Nat) (tx : Transaction)
    (h : w.getTx id = some tx) (hnp : tx.State ≠ .Pending) :
    w.RollbackTransaction id = (w, .error .TransactionNotPending) := by
  unfold Wal.RollbackTransaction
  rw [Wal.getTx] at h
  simp only [Wal.getTx, h]
  rw [if_pos hnp]

theorem rollback_pending (w : Wal) (id : Nat) (tx : Transaction)
    (h : w.getTx id = some tx) (hp : tx.State = .Pending) :
    w.RollbackTransaction id = (w.delTx id, .ok ()) := by
  unfold Wal.RollbackTransaction
  rw [Wal.getTx] at h
  simp only [Wal.getTx, h]
  rw [if_neg (by simp [hp])]

/-- `CommitTransaction` on a pending, unexpired transaction: the table
entry is deleted whatever the batch outcome, and the call returns exactly
the result of `WriteBatch` on the staged entries (run on the table with
the transaction marked `Committed`). -/
theorem commit_pending_consumes (w : Wal) (id : Nat) (tx : Transaction) (now : Nat)
    (fs : List Bool) (htx : w.getTx id = some tx) (hpend : tx.State = .Pending)
    (hexp : tx.IsExpired now = false) :
    (w.CommitTransaction id now fs).1.getTx id = none ∧
    (w.CommitTransaction id now fs).2.2 =
      ((w.setTx id { tx with State := .Committed }).WriteBatch tx.Entries now fs).2.2 := by
  unfold Wal.CommitTransaction
  rw [Wal.getTx] at htx
  simp only [Wal.getTx, htx]
  rw [if_neg (by simp [hpend]), if_neg (by simp [hexp])]
  rcases hwb : (w.setTx id { tx with State := .Committed }).WriteBatch tx.Entries now fs
    with ⟨w2, fs2, r2⟩
  constructor
  · show (w2.delTx id).getTx id = none
    exact lookupTx_removeTx w2.transactions id
  · rfl

/-! ## Segment write and `Append` state lemmas -/

theorem ensureSegment_of_some (w : Wal) (cid : Nat) (h : w.currentSeg = some cid) :
    w.ensureSegment = w := by
  unfold Wal.ensureSegment
  rw [h]

/-- A successful `Segment.Write` appends exactly the frame and changes
nothing else; it also certifies the file handle was open. -/
theorem write_ok_spec (s : Segment) (data : List Nat) (fs fs1 : List Bool)
    (s1 : Segment) (h : s.Write data fs = (s1, fs1, none)) :
    s1.file = s.file ++ frameOf data ∧ s1.index = s.index ∧
    s1.firstEntry = s.firstEntry ∧ s1.lastEntry = s.lastEntry ∧
    s1.entryOffsets = s.entryOffsets ∧ s1.closed = s.closed ∧ s.closed = false := by
  unfold Segment.Write at h
  split at h
  · simp at h
  · rename_i hcl
    split at h
    · simp at h
    · split at h
      · simp at h
      · simp only [Prod.mk.injEq] at h
        obtain ⟨hs, _, _⟩ := h
        rw [← hs]
        refine ⟨?_, rfl, rfl, rfl, rfl, rfl, by simpa using hcl⟩
        simp [frameOf, List.append_assoc]

/-- A failed `Segment.Write` leaves every field except the file alone, and
only ever appends bytes to the file (possibly the dangling length
prefix). -/
theorem write_err_spec (s : Segment) (data : List Nat) (fs fs1 : List Bool)
    (s1 : Segment) (er : WalErr) (h : s.Write data fs = (s1, fs1, some er)) :
    (∃ suf, s1.file = s.file ++ suf) ∧ s1.index = s.index ∧
    s1.firstEntry = s.firstEntry ∧ s1.lastEntry = s.lastEntry ∧
    s1.entryOffsets = s.entryOffsets ∧ s1.closed = s.closed := by
  unfold Segment.Write at h
  split at h
  · simp only [Prod.mk.injEq] at h
    obtain ⟨hs, _, _⟩ := h
    rw [← hs]
    exact ⟨⟨[], by simp⟩, rfl, rfl, rfl, rfl, rfl⟩
  · split at h
    · simp only [Prod.mk.injEq] at h
      obtain ⟨hs, _, _⟩ := h
      rw [← hs]
      exact ⟨⟨[], by simp⟩, rfl, rfl, rfl, rfl, rfl⟩
    · split at h
      · simp only [Prod.mk.injEq] at h
        obtain ⟨hs, _, _⟩ := h
        rw [← hs]
        exact ⟨⟨leBytes 4 data.length, rfl⟩, rfl, rfl, rfl, rfl, rfl⟩
      · simp at h

theorem advanceCursor_fields (w : Wal) (a b : Nat) :
    (w.advanceCursor a b).store = w.store ∧ (w.advanceCursor a b).segments = w.segments ∧
    (w.advanceCursor a b).currentSeg = w.currentSeg ∧
    (w.advanceCursor a b).state = w.state ∧
    (w.advanceCursor a b).cursor =
      ⟨if w.cursor.FirstIndex = 0 then a else w.cursor.FirstIndex, b⟩ :=
  ⟨rfl, rfl, rfl, rfl, rfl⟩

/-- The exact shape of the WAL a successful `appendFinish` returns. -/
theorem appendFinish_ok_state (w3 : Wal) (cur4 : Segment) (idx : Nat)
    (fs3 fs' : List Bool) (w' : Wal) (i : Nat)
    (heq : appendFinish w3 cur4 idx fs3 = (w', fs', .ok i)) :
    i = idx ∧ w' = (w3.putSeg cur4).advanceCursor idx idx := by
  unfold appendFinish at heq
  split at heq
  · split at heq
    · simp at heq
    · simp only [Prod.mk.injEq, Except.ok.injEq] at heq
      obtain ⟨hw, _, hi⟩ := heq
      exact ⟨hi.symm, hw.symm⟩
  · simp only [Prod.mk.injEq, Except.ok.injEq] at heq
    obtain ⟨hw, _, hi⟩ := heq
    exact ⟨hi.symm, hw.symm⟩

/-- The exact shape of the WAL a successful `appendWrite` returns, given
the current segment object. -/
theorem appendWrite_ok_state (w2 : Wal) (e : Entry) (fs2 fs' : List Bool) (w' : Wal)
    (i : Nat) (cur2 : Segment) (hcur : w2.curSegment = some cur2)
    (heq : appendWrite w2 e fs2 = (w', fs', .ok i)) :
    i = w2.cursor.LastIndex + 1 ∧
    ∃ cur3 fs3, cur2.Write (encode { e with Index := i }) fs2 = (cur3, fs3, none) ∧
      w' = ((w2.putSeg cur3).putSeg (cur3.TrackEntry i cur2.SizeD)).advanceCursor i i := by
  unfold appendWrite at heq
  split at heq
  · rename_i hnone
    rw [hnone] at hcur
    cases hcur
  · rename_i cur2x hcur2x
    rw [hcur2x] at hcur
    injection hcur with hcur
    subst hcur
    split at heq
    · simp at heq
    · rename_i cur3 fs3 hwr
      obtain ⟨hi, hw⟩ := appendFinish_ok_state _ _ _ _ _ _ _ heq
      subst hi
      exact ⟨rfl, cur3, fs3, hwr, hw⟩

/-- `rotateFresh` under the retention bound: the fresh segment is simply
appended and made current. -/
theorem rotateFresh_no_retention (w : Wal) (hmax : w.segments.length < w.config.maxSegments) :
    w.rotateFresh = { w with store := w.store ++ [createSegment w.nextSegId],
                             segments := w.segments ++ [w.nextSegId],
                             currentSeg := some w.nextSegId } := by
  unfold Wal.rotateFresh
  rw [if_neg (by simp; omega)]

/-- A successful `rotateSegment` call is exactly `rotateFresh`. -/
theorem rotateSegment_ok (w w2 : Wal) (fs fs2 : List Bool)
    (h : w.rotateSegment fs = (w2, fs2, none)) : w2 = w.rotateFresh := by
  unfold Wal.rotateSegment at h
  split at h
  · rename_i cur hcur
    rcases htf : cur.Sync fs with ⟨fsa, serr⟩
    rw [htf] at h
    match serr, h with
    | some er, h => simp at h
    | none, h =>
      simp only [Prod.mk.injEq] at h
      exact h.1.symm
  · simp only [Prod.mk.injEq] at h
    exact h.1.symm

theorem findSegBy_append_fresh (l : List Segment) (t : Segment)
    (h : ∀ s ∈ l, s.index ≠ t.index) : findSegBy (l ++ [t]) t.index = some t := by
  induction l with
  | nil => simp [findSegBy]
  | cons a r ih =>
    rw [List.cons_append, findSegBy, if_neg (h a (List.mem_cons_self a r))]
    exact ih (fun s hs => h s (List.mem_cons_of_mem a hs))

theorem findSegBy_mem (l : List Segment) (id : Nat) (s : Segment)
    (h : findSegBy l id = some s) : s ∈ l ∧ s.index = id := by
  induction l with
  | nil => simp [findSegBy] at h
  | cons a r ih =>
    rw [findSegBy] at h
    split at h
    · rename_i ha
      injection h with h
      subst h
      exact ⟨List.mem_cons_self a r, ha⟩
    · obtain ⟨h1, h2⟩ := ih h
      exact ⟨List.mem_cons_of_mem a h1, h2⟩

theorem findSegBy_append_left (l l2 : List Segment) (id : Nat) (s : Segment)
    (h : findSegBy l id = some s) : findSegBy (l ++ l2) id = some s := by
  induction l with
  | nil => simp [findSegBy] at h
  | cons a r ih =>
    rw [findSegBy] at h
    rw [List.cons_append, findSegBy]
    split at h
    · rename_i ha
      rw [if_pos ha]
      exact h
    · rename_i ha
      rw [if_neg ha]
      exact ih h

theorem findSegBy_replace_key (l : List Segment) (id : Nat) (s old : Segment)
    (hs : s.index = id) (h : findSegBy l id = some old) :
    findSegBy (l.map fun t => if t.index = id then s else t) id = some s := by
  induction l with
  | nil => simp [findSegBy] at h
  | cons a r ih =>
    rw [findSegBy] at h
    by_cases ha : a.index = id
    · simp only [List.map_cons, if_pos ha]
      rw [findSegBy, if_pos hs]
    · rw [if_neg ha] at h
      simp only [List.map_cons, if_neg ha]
      rw [findSegBy, if_neg ha]
      exact ih h

theorem findSegBy_replace_key_ne (l : List Segment) (id j : Nat) (s : Segment)
    (hs : s.index = id) (hj : j ≠ id) :
    findSegBy (l.map fun t => if t.index = id then s else t) j = findSegBy l j := by
  induction l with
  | nil => rfl
  | cons a r ih =>
    by_cases ha : a.index = id
    · simp only [List.map_cons, if_pos ha]
      rw [findSegBy, if_neg (by rw [hs]; exact fun hc => hj hc.symm),
          findSegBy, if_neg (by rw [ha]; exact fun hc => hj hc.symm)]
      exact ih
    · simp only [List.map_cons, if_neg ha]
      by_cases haj : a.index = j
      · rw [findSegBy, if_pos haj, findSegBy, if_pos haj]
      · rw [findSegBy, if_neg haj, findSegBy, if_neg haj]
        exact ih

/-! ## Fault-free totality of `Append` -/

theorem sync_total (s : Segment) (hcl : s.closed = false) :
    s.Sync [] = ([], none) := by
  unfold Segment.Sync
  rw [if_neg (by simp [hcl])]
  rfl

theorem write_total (s : Segment) (data : List Nat) (hcl : s.closed = false) :
    s.Write data [] =
      ({ s with file := s.file ++ leBytes 4 data.length ++ data }, [], none) := by
  unfold Segment.Write
  rw [if_neg (by simp [hcl])]
  rfl

theorem appendFinish_total (w3 : Wal) (cur4 : Segment) (idx : Nat)
    (hcl : cur4.closed = false) :
    appendFinish w3 cur4 idx [] =
      ((w3.putSeg cur4).advanceCursor idx idx, [], .ok idx) := by
  unfold appendFinish
  split
  · rw [sync_total cur4 hcl]
  · rfl

theorem appendWrite_total (w2 : Wal) (e : Entry) (cur2 : Segment)
    (hcseg : w2.curSegment = some cur2) (hcl : cur2.closed = false) :
    (appendWrite w2 e []).2 = ([], .ok (w2.cursor.LastIndex + 1)) := by
  unfold appendWrite
  simp only [hcseg]
  rw [write_total cur2 _ hcl]
  change (appendFinish _ _ _ _).2 = _
  refine congrArg (fun p => p.2) (appendFinish_total _ _ _ ?_)
  exact hcl

/-- With no injected faults, `Append` on an open WAL whose current segment
is live always succeeds, returning `lastIndex + 1`. -/
theorem Append_total (w : Wal) (e : Entry) (cid : Nat) (cur : Segment)
    (hnc : ¬ w.state = .Closed) (hcur : w.currentSeg = some cid)
    (hlook : w.lookupSeg cid = some cur) (hclosed : cur.closed = false)
    (hnid : ∀ s ∈ w.store, s.index ≠ w.nextSegId)
    (hmax : w.segments.length < w.config.maxSegments) :
    (w.Append e []).2 = ([], .ok (w.cursor.LastIndex + 1)) := by
  have hcseg : w.curSegment = some cur := by
    unfold Wal.curSegment
    rw [hcur]
    exact hlook
  have hsize : cur.Size = .ok cur.file.length := by
    unfold Segment.Size
    rw [if_neg (by simp [hclosed])]
  unfold Wal.Append
  rw [if_neg hnc, ensureSegment_of_some w cid hcur]
  unfold appendSized
  simp only [hcseg, hsize]
  unfold appendRotate
  by_cases hge : cur.file.length ≥ w.config.segmentSize
  · rw [if_pos hge]
    have hrot : w.rotateSegment [] = (w.rotateFresh, [], none) := by
      unfold Wal.rotateSegment
      simp only [hcseg]
      rw [sync_total cur hclosed]
    rw [hrot]
    have hw2 := rotateFresh_no_retention w hmax
    have hfresh : (w.rotateFresh).lookupSeg w.nextSegId =
        some (createSegment w.nextSegId) := by
      rw [hw2]
      show findSegBy (w.store ++ [createSegment w.nextSegId]) w.nextSegId = _
      exact findSegBy_append_fresh w.store (createSegment w.nextSegId) hnid
    have hcseg2 : (w.rotateFresh).curSegment = some (createSegment w.nextSegId) := by
      unfold Wal.curSegment
      rw [show (w.rotateFresh).currentSeg = some w.nextSegId from by rw [hw2]]
      exact hfresh
    have hap := appendWrite_total (w.rotateFresh) e (createSegment w.nextSegId) hcseg2 rfl
    show (appendWrite w.rotateFresh e []).2 = _
    rw [hap, (rotateFresh_fields w).1]
  · rw [if_neg hge]
    exact appendWrite_total w e cur hcseg hclosed

/-! ## Claim C5 -/

/-- Claim C5: for every pending, non-expired transaction,
`CommitTransaction` marks it `Committed`, hands the staged entries to
`WriteBatch` (the call's result is exactly the batch result), and removes
the transaction from the table regardless of the batch outcome (the fault
schedule `fs` is arbitrary, so this covers failing flushes); a second
`CommitTransaction` on the same id therefore returns
`TransactionNotFound`. -/
theorem c5_commit_consumes_id_regardless_of_batch (w : Wal) (id : Nat)
    (tx : Transaction) (now now2 : Nat) (fs fs2 : List Bool)
    (htx : w.getTx id = some tx) (hpend : tx.State = .Pending)
    (hexp : tx.IsExpired now = false) :
    (w.CommitTransaction id now fs).1.getTx id = none ∧
    (w.CommitTransaction id now fs).2.2 =
      ((w.setTx id { tx with State := .Committed }).WriteBatch tx.Entries now fs).2.2 ∧
    ((w.CommitTransaction id now fs).1.CommitTransaction id now2 fs2).2.2 =
      .error .TransactionNotFound := by
  obtain ⟨h1, h2⟩ := commit_pending_consumes w id tx now fs htx hpend hexp
  refine ⟨h1, h2, ?_⟩
  rw [commit_notfound _ _ _ _ h1]

/-- Witness for C5: on `wTx` (pending transaction 7, not expired at
instant 3), the theorem instantiates; the id is consumed and a second
commit reports `TransactionNotFound`. -/
theorem c5_witness :
    (wTx.getTx 7 = some txP ∧ txP.State = .Pending ∧ txP.IsExpired 3 = false) ∧
    ((wTx.CommitTransaction 7 3 []).1.getTx 7 = none ∧
     (wTx.CommitTransaction 7 3 []).2.2 =
       ((wTx.setTx 7 { txP with State := .Committed }).WriteBatch txP.Entries 3 []).2.2 ∧
     ((wTx.CommitTransaction 7 3 []).1.CommitTransaction 7 5 []).2.2 =
       .error .TransactionNotFound) :=
  ⟨⟨by decide, by decide, by decide⟩,
   c5_commit_consumes_id_regardless_of_batch wTx 7 txP 3 5 [] []
     (by decide) (by decide) (by decide)⟩

/-! ## Claim C4 -/

/-- Claim C4, amended.  Transactions terminated through
`RollbackTransaction`, through a pending non-expired `CommitTransaction`,
or through the expiry sweep are removed from the table; but a transaction
found expired during `AddToTransaction` or `CommitTransaction` is only
marked `Aborted` and stays in the table: later operations on its id
return `TransactionNotPending` (not `TransactionNotFound`), and the sweep
never removes it, because the sweep only removes entries still
`Pending`.  (`huni` says the table, as a map, holds `tx` as the sole
value at the key `id`.) -/
theorem c4_amended_termination_and_table (w : Wal) (id : Nat) (tx : Transaction)
    (now : Nat) (e : Entry) (fs : List Bool)
    (htx : w.getTx id = some tx) (hpend : tx.State = .Pending)
    (huni : ∀ p ∈ w.transactions, p.1 = id → p.2 = tx) :
    ((w.RollbackTransaction id).1.getTx id = none ∧
     (w.RollbackTransaction id).2 = .ok ()) ∧
    (tx.IsExpired now = false →
      (w.CommitTransaction id now fs).1.getTx id = none) ∧
    (tx.IsExpired now = true →
      ((w.CleanupExpiredTransactions now).1.getTx id = none ∧
       (w.AddToTransaction id e now).2 = .error .TransactionExpired ∧
       (w.AddToTransaction id e now).1.getTx id = some { tx with State := .Aborted } ∧
       ((w.AddToTransaction id e now).1.AddToTransaction id e now).2 =
         .error .TransactionNotPending ∧
       ((w.AddToTransaction id e now).1.CommitTransaction id now fs).2.2 =
         .error .TransactionNotPending ∧
       ((w.AddToTransaction id e now).1.RollbackTransaction id).2 =
         .error .TransactionNotPending ∧
       ((w.AddToTransaction id e now).1.CleanupExpiredTransactions now).1.getTx id =
         some { tx with State := .Aborted } ∧
       (w.CommitTransaction id now fs).1.getTx id =
         some { tx with State := .Aborted })) := by
  refine ⟨?_, ?_, ?_⟩
  · rw [rollback_pending w id tx htx hpend]
    exact ⟨lookupTx_removeTx w.transactions id, rfl⟩
  · intro hexp
    exact (commit_pending_consumes w id tx now fs htx hpend hexp).1
  · intro hexp
    have habort : w.AddToTransaction id e now =
        (w.setTx id { tx with State := .Aborted }, .error .TransactionExpired) :=
      add_expired w id e now tx htx hpend hexp
    have hlook : (w.AddToTransaction id e now).1.getTx id =
        some { tx with State := .Aborted } := by
      rw [habort]
      exact lookupTx_setTx_self w.transactions id _ tx htx
    have hnp : ({ tx with State := .Aborted } : Transaction).State ≠ .Pending := by simp
    refine ⟨?_, by rw [habort], hlook, ?_, ?_, ?_, ?_, ?_⟩
    · exact lookupTx_sweep_none w.transactions id now
        (fun p hp hpid => by rw [huni p hp hpid]; exact ⟨hexp, hpend⟩)
    · rw [add_notpending _ id e now _ hlook hnp]
    · rw [commit_notpending _ id now fs _ hlook hnp]
    · rw [rollback_notpending _ id _ hlook hnp]
    · rw [Wal.CleanupExpiredTransactions]
      show lookupTx (sweepTxs now (w.AddToTransaction id e now).1.transactions).1 id = _
      exact lookupTx_sweep_keep _ id now _ hlook (by simp)
    · rw [commit_expired w id now fs tx htx hpend hexp]
      exact lookupTx_setTx_self w.transactions id _ tx htx

/-- Witness for C4's amended claim: instantiated on `wTx` (pending
transaction 7, expired at instant 100). -/
theorem c4_witness :
    (wTx.getTx 7 = some txP ∧ txP.State = .Pending ∧
     (∀ p ∈ wTx.transactions, p.1 = 7 → p.2 = txP)) ∧
    (((wTx.RollbackTransaction 7).1.getTx 7 = none ∧
      (wTx.RollbackTransaction 7).2 = .ok ()) ∧
     (txP.IsExpired 100 = false →
       (wTx.CommitTransaction 7 100 []).1.getTx 7 = none) ∧
     (txP.IsExpired 100 = true →
       ((wTx.CleanupExpiredTransactions 100).1.getTx 7 = none ∧
        (wTx.AddToTransaction 7 e0 100).2 = .error .TransactionExpired ∧
        (wTx.AddToTransaction 7 e0 100).1.getTx 7 =
          some { txP with State := .Aborted } ∧
        ((wTx.AddToTransaction 7 e0 100).1.AddToTransaction 7 e0 100).2 =
          .error .TransactionNotPending ∧
        ((wTx.AddToTransaction 7 e0 100).1.CommitTransaction 7 100 []).2.2 =
          .error .TransactionNotPending ∧
        ((wTx.AddToTransaction 7 e0 100).1.RollbackTransaction 7).2 =
          .error .TransactionNotPending ∧
        ((wTx.AddToTransaction 7 e0 100).1.CleanupExpiredTransactions 100).1.getTx 7 =
          some { txP with State := .Aborted } ∧
        (wTx.CommitTransaction 7 100 []).1.getTx 7 =
          some { txP with State := .Aborted }))) :=
  ⟨⟨by decide, by decide, by decide⟩,
   c4_amended_termination_and_table wTx 7 txP 100 e0 []
     (by decide) (by decide) (by decide)⟩

/-- The downward scan of `Truncate` when the *last* segment (scanned
first) straddles the target index: nothing is removed; at
`i = lastEntry` nothing changes at all, at `i < lastEntry` the segment is
truncated at the byte offset of record `i + 1` and its offset index
trimmed. -/
theorem truncGo_straddle (i : Nat) (store : List Segment) (cid : Nat)
    (rest : List Nat) (cur : Segment)
    (hfind : findSegBy store cid = some cur)
    (hfe : cur.firstEntry ≤ i) (hle : i ≤ cur.lastEntry)
    (hcontig : cur.entryOffsets.length = cur.lastEntry + 1 - cur.firstEntry) :
    (i = cur.lastEntry → truncGo i store (cid :: rest) = (store, cid :: rest, none)) ∧
    (i < cur.lastEntry →
      ∃ off, cur.entryOffsets.get? (i - cur.firstEntry + 1) = some off ∧
        truncGo i store (cid :: rest) =
          (store.map (fun s => if s.index = cid then straddleSeg cur i off else s),
           cid :: rest, none)) := by
  have hlen : cur.entryOffsets.length ≠ 0 := by omega
  have hglm : goLenMinusOne cur.entryOffsets = cur.entryOffsets.length - 1 := by
    unfold goLenMinusOne
    rw [if_neg hlen]
  have hcont : cur.ContainsIndex i = true := by
    simp [Segment.ContainsIndex]
    omega
  constructor
  · intro heqi
    unfold truncGo
    simp only [hfind]
    rw [if_neg (by omega), if_pos hcont, if_neg (by rw [hglm]; omega)]
  · intro hlt
    have hpos : i - cur.firstEntry + 1 < cur.entryOffsets.length := by omega
    obtain ⟨off, hoff⟩ : ∃ off, cur.entryOffsets.get? (i - cur.firstEntry + 1) = some off :=
      ⟨_, List.get?_eq_get hpos⟩
    refine ⟨off, hoff, ?_⟩
    unfold truncGo
    simp only [hfind]
    rw [if_neg (by omega), if_pos hcont, if_pos (by rw [hglm]; omega), hoff]
    rfl

/-- Claim C8, amended.  When the truncation index lies inside the
*current* (last) segment — the case where the current-segment pointer
survives — `Truncate i` succeeds, removes nothing (no segment lies wholly
beyond `i`), truncates that segment's file at the byte offset of the
first record after `i` when one exists, and sets `lastIndex = i`; then
`Get j` fails with `IndexOutOfRange` for every `j > i`, and a fault-free
`Append` yields index `i + 1`.  (When the index lies in an *older*
segment, the code removes the later segments but leaves `currentSegment`
pointing at a closed segment, so the subsequent `Append` fails — see the
counterexample.) -/
theorem c8_amended_truncate_in_current_segment (w : Wal) (i : Nat) (e : Entry)
    (cid : Nat) (cur : Segment) (rest : List Nat)
    (hnc : ¬ w.state = .Closed)
    (hcur : w.currentSeg = some cid)
    (hrev : w.segments.reverse = cid :: rest)
    (hlook : w.lookupSeg cid = some cur)
    (hclosed : cur.closed = false)
    (hfe : cur.firstEntry ≤ i) (hle : i ≤ cur.lastEntry)
    (hcontig : cur.entryOffsets.length = cur.lastEntry + 1 - cur.firstEntry)
    (hnid : ∀ s ∈ w.store, s.index ≠ w.nextSegId)
    (hmax : w.segments.length < w.config.maxSegments) :
    (w.Truncate i).2 = .ok () ∧
    (w.Truncate i).1.cursor.LastIndex = i ∧
    (w.Truncate i).1.segments = w.segments ∧
    (∀ j, j > i → (w.Truncate i).1.Get j = .error .IndexOutOfRange) ∧
    ((w.Truncate i).1.Append e []).2.2 = .ok (i + 1) ∧
    (i = cur.lastEntry → (w.Truncate i).1.lookupSeg cid = some cur) ∧
    (i < cur.lastEntry →
      ∃ off, cur.entryOffsets.get? (i - cur.firstEntry + 1) = some off ∧
        (w.Truncate i).1.lookupSeg cid = some (straddleSeg cur i off)) := by
  have hcidx : cur.index = cid := (findSegBy_mem w.store cid cur hlook).2
  obtain ⟨hcaseEq, hcaseLt⟩ := truncGo_straddle i w.store cid rest cur hlook hfe hle hcontig
  have hsegsW : (cid :: rest).reverse = w.segments := by
    rw [← hrev, List.reverse_reverse]
  have main : ∀ S : List Segment,
      truncGo i w.store (cid :: rest) = (S, cid :: rest, none) →
      (∀ s' ∈ S, s'.index ≠ w.nextSegId) →
      ∀ cur1 : Segment, findSegBy S cid = some cur1 → cur1.closed = false →
      (w.Truncate i).2 = .ok () ∧
      (w.Truncate i).1.cursor.LastIndex = i ∧
      (w.Truncate i).1.segments = w.segments ∧
      (∀ j, j > i → (w.Truncate i).1.Get j = .error .IndexOutOfRange) ∧
      ((w.Truncate i).1.Append e []).2.2 = .ok (i + 1) ∧
      (w.Truncate i).1.lookupSeg cid = some cur1 := by
    intro S hgo hnid1 cur1 hlook1 hcl1
    have htr : w.Truncate i = (truncResult w S (cid :: rest) i, .ok ()) := by
      unfold Wal.Truncate
      rw [if_neg hnc, hrev, hgo]
    have h1 : (w.Truncate i).1 = truncResult w S (cid :: rest) i := by rw [htr]
    have h2 : (w.Truncate i).2 = .ok () := by rw [htr]
    refine ⟨h2, by rw [h1]; rfl, by rw [h1]; exact hsegsW, ?_, ?_, by rw [h1]; exact hlook1⟩
    · intro j hj
      rw [h1]
      unfold Wal.Get
      rw [if_neg (show ¬ (truncResult w S (cid :: rest) i).state = WState.Closed from hnc)]
      rw [if_pos (Or.inr (show j > (truncResult w S (cid :: rest) i).cursor.LastIndex from hj))]
    · rw [h1]
      have hnext : (truncResult w S (cid :: rest) i).nextSegId = w.nextSegId := by
        unfold Wal.nextSegId truncResult
        rw [hsegsW]
      have happ := Append_total (truncResult w S (cid :: rest) i) e cid cur1
        hnc hcur hlook1 hcl1
        (fun s' hs' => by rw [hnext]; exact hnid1 s' hs')
        (by
          show ((cid :: rest).reverse).length < w.config.maxSegments
          rw [hsegsW]
          exact hmax)
      exact congrArg (fun p => p.2) happ
  by_cases hi : i = cur.lastEntry
  · have hgo := hcaseEq hi
    have hres := main w.store hgo hnid cur hlook hclosed
    exact ⟨hres.1, hres.2.1, hres.2.2.1, hres.2.2.2.1, hres.2.2.2.2.1,
      fun _ => hres.2.2.2.2.2, fun hlt => absurd hi (by omega)⟩
  · have hlt : i < cur.lastEntry := by omega
    obtain ⟨off, hoff, hgo⟩ := hcaseLt hlt
    have hnid1 : ∀ s' ∈ w.store.map
        (fun s => if s.index = cid then straddleSeg cur i off else s),
        s'.index ≠ w.nextSegId := by
      intro s' hs'
      rcases List.mem_map.mp hs' with ⟨t, ht, hteq⟩
      by_cases htc : t.index = cid
      · rw [if_pos htc] at hteq
        rw [← hteq]
        show cur.index ≠ w.nextSegId
        exact hnid cur (findSegBy_mem w.store cid cur hlook).1
      · rw [if_neg htc] at hteq
        rw [← hteq]
        exact hnid t ht
    have hlook1 : findSegBy (w.store.map
        (fun s => if s.index = cid then straddleSeg cur i off else s)) cid =
        some (straddleSeg cur i off) :=
      findSegBy_replace_key w.store cid _ cur hcidx hlook
    have hres := main _ hgo hnid1 _ hlook1 hclosed
    exact ⟨hres.1, hres.2.1, hres.2.2.1, hres.2.2.2.1, hres.2.2.2.2.1,
      fun heq => absurd heq (by omega), fun _ => ⟨off, hoff, hres.2.2.2.2.2⟩⟩

/-- Witness for C8's amended claim: on `wTwoRec` (records 1-2 in the
current segment), `Truncate 1` succeeds, sets `lastIndex = 1`, truncates
the segment file at byte offset 42 (where record 2 started), `Get 5`
fails with `IndexOutOfRange`, and the following `Append` returns
index 2. -/
theorem c8_witness :
    (¬ wTwoRec.state = .Closed ∧ wTwoRec.currentSeg = some 1 ∧
     wTwoRec.segments.reverse = 1 :: [] ∧ wTwoRec.lookupSeg 1 = some segTwoRec ∧
     segTwoRec.closed = false ∧ segTwoRec.firstEntry ≤ 1 ∧ 1 ≤ segTwoRec.lastEntry ∧
     segTwoRec.entryOffsets.length = segTwoRec.lastEntry + 1 - segTwoRec.firstEntry ∧
     wTwoRec.segments.length < wTwoRec.config.maxSegments) ∧
    ((wTwoRec.Truncate 1).2 = .ok () ∧
     (wTwoRec.Truncate 1).1.cursor.LastIndex = 1 ∧
     (wTwoRec.Truncate 1).1.segments = wTwoRec.segments ∧
     (wTwoRec.Truncate 1).1.Get 5 = .error .IndexOutOfRange ∧
     ((wTwoRec.Truncate 1).1.Append e0 []).2.2 = .ok 2) := by
  have h := c8_amended_truncate_in_current_segment wTwoRec 1 e0 1 segTwoRec []
    (by decide) (by decide) (by decide) (by decide) (by decide) (by decide)
    (by decide) (by decide) (by decide) (by decide)
  exact ⟨⟨by decide, by decide, by decide, by decide, by decide, by decide, by decide,
          by decide, by decide⟩,
         h.1, h.2.1, h.2.2.1, h.2.2.2.1 5 (by decide), h.2.2.2.2.1⟩

/-! ## `prepBatch` and write-loop lemmas -/

theorem prepBatch_get? (es : List Entry) : ∀ (l now k : Nat) (e0 : Entry),
    es.get? k = some e0 →
    (prepBatch l now es).get? k = some (prepEntry (l + k) now e0) := by
  induction es with
  | nil => intro l now k e0 h; simp at h
  | cons e rest ih =>
    intro l now k e0 h
    match k with
    | 0 =>
      rw [List.get?_cons_zero] at h
      injection h with h
      subst h
      rfl
    | k + 1 =>
      rw [List.get?_cons_succ] at h
      have := ih (l + 1) now k e0 h
      rw [prepBatch, List.get?_cons_succ, this]
      have harith : l + 1 + k = l + (k + 1) := by omega
      rw [harith]

theorem prepBatch_length (l now : Nat) (es : List Entry) :
    (prepBatch l now es).length = es.length := by
  induction es generalizing l with
  | nil => rfl
  | cons e rest ih => simp [prepBatch, ih]

theorem prepBatch_map_index (es : List Entry) : ∀ l now : Nat,
    (prepBatch l now es).map (fun e => e.Index) =
      (List.range es.length).map (fun k => l + k + 1) := by
  induction es with
  | nil => intro l now; rfl
  | cons e rest ih =>
    intro l now
    rw [prepBatch, List.map_cons, ih (l + 1) now]
    rw [List.length_cons, List.range_succ_eq_map, List.map_cons, List.map_map]
    congr 1
    apply List.map_congr_left
    intro k _
    simp
    omega

theorem prepBatch_head? (l now : Nat) (e : Entry) (rest : List Entry) :
    (prepBatch l now (e :: rest)).head? = some (prepEntry l now e) := rfl

theorem prepBatch_index_pos (es : List Entry) : ∀ l now : Nat,
    ∀ e' ∈ prepBatch l now es, 1 ≤ e'.Index := by
  induction es with
  | nil => intro l now e' h; simp [prepBatch] at h
  | cons e rest ih =>
    intro l now e' h
    rw [prepBatch] at h
    rcases List.mem_cons.mp h with h1 | h1
    · rw [h1]
      show 1 ≤ l + 1
      omega
    · exact ih (l + 1) now e' h1

theorem prepBatch_chain (es : List Entry) : ∀ l now : Nat,
    (prepBatch l now es).Chain' (fun a b => a.Index ≤ b.Index) := by
  induction es with
  | nil => intro l now; exact List.chain'_nil
  | cons e rest ih =>
    intro l now
    rw [prepBatch]
    apply List.chain'_cons'.mpr
    refine ⟨?_, ih (l + 1) now⟩
    intro y hy
    match rest, hy with
    | e2 :: rest2, hy =>
      rw [prepBatch_head?] at hy
      injection hy with hy
      rw [← hy]
      show l + 1 ≤ l + 1 + 1
      omega

theorem getLastD_range_map (l : Nat) : ∀ n : Nat, 1 ≤ n →
    ((List.range n).map (fun k => l + k + 1)).getLastD 0 = l + n := by
  intro n
  induction n with
  | zero => omega
  | succ m ih =>
    intro _
    rw [List.range_succ, List.map_append]
    rw [show List.map (fun k => l + k + 1) [m] = [l + m + 1] from rfl]
    rw [List.getLastD_concat]
    omega

theorem headD_range_map (l n : Nat) (hn : 1 ≤ n) :
    ((List.range n).map (fun k => l + k + 1)).headD 0 = l + 1 := by
  match n, hn with
  | m + 1, _ =>
    rw [List.range_succ_eq_map, List.map_cons]
    rfl

theorem get?_append_cons {α : Type} (l1 : List α) (x : α) (l2 : List α) :
    (l1 ++ x :: l2).get? l1.length = some x := by
  rw [List.get?_append_right (Nat.le_refl _)]
  simp

/-- Full description of the `WriteBatch` write loop: the file and the
offset index only ever grow; identity and liveness of the segment are
kept; on success the file gains exactly the frames of the entries; and
either nothing was tracked (the very first length-prefix write already
failed) or the head entry's tracking is in place. -/
theorem batchWriteLoop_spec (es : List Entry) : ∀ (seg : Segment) (fs fs1 : List Bool)
    (seg1 : Segment) (werr : Option WalErr),
    seg.closed = false →
    (∀ e' ∈ es, 1 ≤ e'.Index) →
    es.Chain' (fun a b => a.Index ≤ b.Index) →
    batchWriteLoop seg es fs = (seg1, fs1, werr) →
    (∃ suf, seg1.file = seg.file ++ suf) ∧
    (∃ osuf, seg1.entryOffsets = seg.entryOffsets ++ osuf) ∧
    seg1.index = seg.index ∧ seg1.closed = false ∧
    (werr = none →
      seg1.file = seg.file ++ es.flatMap (fun e => frameOf (encode e))) ∧
    ((seg1.firstEntry = seg.firstEntry ∧ seg1.lastEntry = seg.lastEntry ∧
      seg1.entryOffsets = seg.entryOffsets)
     ∨ (∃ e0 ∈ es.head?, trackedHead seg seg1 e0)) ∧
    (werr = none → ∀ e0 ∈ es.head?, trackedHead seg seg1 e0) := by
  induction es with
  | nil =>
    intro seg fs fs1 seg1 werr hcl _ _ h
    rw [batchWriteLoop] at h
    simp only [Prod.mk.injEq] at h
    obtain ⟨h1, _, h3⟩ := h
    subst h1
    refine ⟨⟨[], by simp⟩, ⟨[], by simp⟩, rfl, hcl, ?_, Or.inl ⟨rfl, rfl, rfl⟩, ?_⟩
    · intro _
      rw [List.flatMap_nil, List.append_nil]
    · intro _ e0 h0
      rw [Option.mem_def] at h0
      cases h0
  | cons e rest ih =>
    intro seg fs fs1 seg1 werr hcl hones hchain h
    rw [batchWriteLoop] at h
    split at h
    · rename_i segW fsW err hwr
      simp only [Prod.mk.injEq] at h
      obtain ⟨h1, _, h3⟩ := h
      subst h1
      obtain ⟨hsuf, hx, hfe, hle, hoff, hclW⟩ := write_err_spec seg _ fs fsW segW err hwr
      refine ⟨hsuf, ⟨[], by rw [hoff]; simp⟩, hx, by rw [hclW]; exact hcl, ?_,
        Or.inl ⟨hfe, hle, hoff⟩, ?_⟩
      · intro hc; rw [← h3] at hc; cases hc
      · intro hc; rw [← h3] at hc; cases hc
    · rename_i segW fsW hwr
      obtain ⟨hfw, hxw, hfew, hlew, hoffw, hclw, _⟩ := write_ok_spec seg _ fs fsW segW hwr
      have hone : 1 ≤ e.Index := hones e (List.mem_cons_self e rest)
      have hclT : (segW.TrackEntry e.Index seg.SizeD).closed = false := by
        show segW.closed = false
        rw [hclw]; exact hcl
      have honesT : ∀ e' ∈ rest, 1 ≤ e'.Index :=
        fun e' h' => hones e' (List.mem_cons_of_mem e h')
      have hchainT : rest.Chain' (fun a b => a.Index ≤ b.Index) :=
        (List.chain'_cons'.mp hchain).2
      obtain ⟨⟨suf, hsuf⟩, ⟨osuf, hosuf⟩, hx, hcl1, hok, hdisj, htrk⟩ :=
        ih (segW.TrackEntry e.Index seg.SizeD) fsW fs1 seg1 werr hclT honesT hchainT h
      have hSizeD : seg.SizeD = seg.file.length := by
        unfold Segment.SizeD Segment.Size
        rw [if_neg (by simp [hcl])]
      have hTfile : (segW.TrackEntry e.Index seg.SizeD).file = seg.file ++ frameOf (encode e) := by
        show segW.file = _
        rw [hfw]
      have hToffs : (segW.TrackEntry e.Index seg.SizeD).entryOffsets =
          seg.entryOffsets ++ [seg.SizeD] := by
        show segW.entryOffsets ++ [seg.SizeD] = _
        rw [hoffw]
      have hTfirst : (segW.TrackEntry e.Index seg.SizeD).firstEntry =
          (if seg.firstEntry = 0 then e.Index else seg.firstEntry) := by
        show (if segW.firstEntry = 0 then e.Index else segW.firstEntry) = _
        rw [hfew]
      have hTfirst_ne : (segW.TrackEntry e.Index seg.SizeD).firstEntry ≠ 0 := by
        rw [hTfirst]
        split
        · omega
        · rename_i hne; exact hne
      have hTlast : (segW.TrackEntry e.Index seg.SizeD).lastEntry = e.Index := rfl
      have hgetoff : seg1.entryOffsets.get? seg.entryOffsets.length =
          some seg.file.length := by
        rw [hosuf, hToffs, List.append_assoc, ← hSizeD]
        exact get?_append_cons seg.entryOffsets seg.SizeD osuf
      have htrkhead : trackedHead seg seg1 e := by
        refine ⟨?_, ?_, hgetoff⟩
        · rcases hdisj with ⟨hf1, _, _⟩ | ⟨e1, he1, hf1, _, _⟩
          · rw [hf1, hTfirst]
          · rw [hf1, if_neg hTfirst_ne, hTfirst]
        · rcases hdisj with ⟨_, hl1, _⟩ | ⟨e1, he1, _, hl1, _⟩
          · rw [hl1, hTlast]
          · have hhead : e.Index ≤ e1.Index := by
              match rest, he1, hchain with
              | e2 :: rest2, he1, hchain =>
                rw [Option.mem_def, List.head?_cons] at he1
                injection he1 with he1
                subst he1
                exact (List.chain'_cons.mp hchain).1
            omega
      refine ⟨⟨frameOf (encode e) ++ suf, by rw [hsuf, hTfile, List.append_assoc]⟩,
        ⟨[seg.SizeD] ++ osuf, by rw [hosuf, hToffs, List.append_assoc]⟩,
        hx.trans hxw, hcl1, ?_,
        Or.inr ⟨e, by rw [Option.mem_def, List.head?_cons], htrkhead⟩, ?_⟩
      · intro hnone
        rw [hok hnone, hTfile, List.flatMap_cons, List.append_assoc]
      · intro _ e0 he0
        rw [Option.mem_def, List.head?_cons] at he0
        injection he0 with he0
        subst he0
        exact htrkhead

theorem batchWriteLoop_nofault (es : List Entry) : ∀ seg : Segment,
    seg.closed = false → ∃ seg1, batchWriteLoop seg es [] = (seg1, [], none) := by
  induction es with
  | nil => intro seg _; exact ⟨seg, rfl⟩
  | cons e rest ih =>
    intro seg hcl
    obtain ⟨seg1, h1⟩ := ih (({ seg with
      file := seg.file ++ leBytes 4 (encode e).length ++ encode e } : Segment).TrackEntry
        e.Index seg.SizeD) hcl
    refine ⟨seg1, ?_⟩
    rw [batchWriteLoop, write_total seg (encode e) hcl]
    exact h1

theorem prepBatch_nonzero_ts (es : List Entry) : ∀ l now : Nat, now ≠ 0 →
    ∀ e' ∈ prepBatch l now es, e'.Timestamp ≠ 0 := by
  induction es with
  | nil => intro l now _ e' h; simp [prepBatch] at h
  | cons e rest ih =>
    intro l now hnow e' h
    rw [prepBatch] at h
    rcases List.mem_cons.mp h with h1 | h1
    · rw [h1]
      show (if e.Timestamp = 0 then now else e.Timestamp) ≠ 0
      split
      · exact hnow
      · rename_i hz; exact hz
    · exact ih (l + 1) now hnow e' h1

/-! ## Segment resolution and range-scan lemmas -/

theorem findContaining_none (store : List Segment) (j : Nat) (ids : List Nat)
    (h : ∀ id ∈ ids, ∀ s, findSegBy store id = some s → s.ContainsIndex j = false) :
    findContaining store j ids = none := by
  induction ids with
  | nil => rfl
  | cons id rest ih =>
    rw [findContaining]
    have ihr := ih (fun id2 h2 => h id2 (List.mem_cons_of_mem id h2))
    cases hfind : findSegBy store id with
    | none => exact ihr
    | some s =>
      show (if s.ContainsIndex j = true then some s else findContaining store j rest) = none
      rw [h id (List.mem_cons_self id rest) s hfind]
      rw [if_neg (by simp)]
      exact ihr

theorem findContaining_found (store : List Segment) (j : Nat) (ids : List Nat)
    (cid : Nat) (cur1 : Segment)
    (hmem : cid ∈ ids) (hlook : findSegBy store cid = some cur1)
    (hcont : cur1.ContainsIndex j = true)
    (huni : ∀ id ∈ ids, ∀ s, findSegBy store id = some s →
            s.ContainsIndex j = true → s = cur1) :
    findContaining store j ids = some cur1 := by
  induction ids with
  | nil => simp at hmem
  | cons id rest ih =>
    rw [findContaining]
    have ihr : cid ∈ rest → findContaining store j rest = some cur1 := fun hm =>
      ih hm (fun id2 h2 => huni id2 (List.mem_cons_of_mem id h2))
    cases hfind : findSegBy store id with
    | none =>
      have hne : id ≠ cid := fun hc => by rw [hc, hlook] at hfind; cases hfind
      have hm2 : cid ∈ rest := by
        rcases List.mem_cons.mp hmem with h1 | h1
        · exact absurd h1.symm hne
        · exact h1
      exact ihr hm2
    | some s =>
      show (if s.ContainsIndex j = true then some s else findContaining store j rest) =
        some cur1
      by_cases hc : s.ContainsIndex j = true
      · rw [if_pos hc]
        rw [huni id (List.mem_cons_self id rest) s hfind hc]
      · rw [if_neg hc]
        have hne : id ≠ cid := by
          intro hcc
          rw [hcc, hlook] at hfind
          injection hfind with hfind
          exact hc (hfind ▸ hcont)
        have hm2 : cid ∈ rest := by
          rcases List.mem_cons.mp hmem with h1 | h1
          · exact absurd h1.symm hne
          · exact h1
        exact ihr hm2

theorem getRangeLoop_none (w : Wal) : ∀ (count i : Nat) (acc : List Entry),
    (∀ j, i ≤ j → j < i + count → w.findSegmentByIndex j = none) →
    w.getRangeLoop i count acc = .ok acc.reverse := by
  intro count
  induction count with
  | zero => intro i acc _; rfl
  | succ c ih =>
    intro i acc h
    have hni : w.findSegmentByIndex i = none := h i (Nat.le_refl i) (by omega)
    have ihr := ih (i + 1) acc (fun j hj1 hj2 => h j (by omega) (by omega))
    rw [Wal.getRangeLoop, hni]
    exact ihr

theorem getRangeLoop_err (w : Wal) (c i : Nat) (acc : List Entry) (seg : Segment)
    (er : WalErr) (hfind : w.findSegmentByIndex i = some seg)
    (hget : seg.GetEntryByIndex i = .error er) :
    w.getRangeLoop i (c + 1) acc = .error er := by
  rw [Wal.getRangeLoop, hfind]
  simp only [hget]

theorem findSegBy_append_single_ne (l : List Segment) (t : Segment) (id : Nat)
    (h : id ≠ t.index) : findSegBy (l ++ [t]) id = findSegBy l id := by
  induction l with
  | nil =>
    show (if t.index = id then some t else findSegBy [] id) = none
    rw [if_neg (fun hc => h hc.symm)]
    rfl
  | cons a r ih =>
    rw [List.cons_append, findSegBy, findSegBy]
    by_cases ha : a.index = id
    · rw [if_pos ha, if_pos ha]
    · rw [if_neg ha, if_neg ha]
      exact ih

/-- Reading a record whose frame sits at the recorded offset, right at the
end of the file, succeeds with exactly the framed bytes. -/
theorem getEntry_frame_ok (s : Segment) (j : Nat) (pre d : List Nat)
    (hcl : s.closed = false)
    (hcont : s.ContainsIndex j = true)
    (hfile : s.file = pre ++ frameOf d)
    (hoff : s.entryOffsets.get? (j - s.firstEntry) = some pre.length)
    (hd : d.length < 2 ^ 32) :
    s.GetEntryByIndex j = .ok d := by
  unfold Segment.GetEntryByIndex
  rw [if_neg (by simp [hcont])]
  simp only [hoff]
  unfold Segment.ReadAt
  rw [if_neg (by simp [hcl])]
  have hfile2 : s.file = pre ++ (frameOf d ++ []) := by
    rw [List.append_nil]
    exact hfile
  rw [hfile2, readFrame_append pre d [] hd]

/-- `Get` on an open log, at an in-range index owned by a resolvable
segment, returns the decoded record bytes. -/
theorem get_ok_of_found (w : Wal) (j : Nat) (seg : Segment) (d : List Nat)
    (hst : ¬ w.state = .Closed)
    (hb : ¬ (j < w.cursor.FirstIndex ∨ j > w.cursor.LastIndex))
    (hfind : w.findSegmentByIndex j = some seg)
    (hget : seg.GetEntryByIndex j = .ok d) :
    w.Get j = decode d := by
  unfold Wal.Get
  rw [if_neg hst, if_neg hb]
  simp only [hfind, hget]

/-- The state `WriteBatch` leaves behind on any failure path (write or
sync): the mid-batch segment object `cur1` is truncated back to the
pre-batch size and written back.  Under the stated well-formedness of the
log (`htip`: no segment claims records beyond the cursor; `hcontig`: the
current segment is fresh or positionally indexed up to the cursor), the
cursor is untouched, the current segment's bytes are exactly restored,
and a `GetRange` over the batch's assigned index range can only come back
empty: either no segment claims those indices at all, or the restored
segment still claims the head index but its recorded offset now points at
the end of the truncated file, so the read reports `EOF`. -/
theorem wbRestore_spec (w : Wal) (cid : Nat) (cur cur1 : Segment) (e1 : Entry) (n : Nat)
    (hnc : ¬ w.state = .Closed)
    (hmem : cid ∈ w.segments)
    (hlook : w.lookupSeg cid = some cur)
    (hclosed : cur.closed = false)
    (hcl1 : cur1.closed = false)
    (htip : ∀ id2 ∈ w.segments, ∀ s, w.lookupSeg id2 = some s →
            s.lastEntry ≤ w.cursor.LastIndex)
    (hcontig : (cur.firstEntry = 0 ∧ cur.lastEntry = 0 ∧ cur.entryOffsets = []) ∨
               (1 ≤ cur.firstEntry ∧ cur.firstEntry ≤ cur.lastEntry ∧
                cur.lastEntry = w.cursor.LastIndex ∧
                cur.entryOffsets.length = cur.lastEntry + 1 - cur.firstEntry))
    (hsuf : ∃ suf, cur1.file = cur.file ++ suf)
    (hx : cur1.index = cur.index)
    (hdisj : (cur1.firstEntry = cur.firstEntry ∧ cur1.lastEntry = cur.lastEntry ∧
              cur1.entryOffsets = cur.entryOffsets) ∨
             (trackedHead cur cur1 e1 ∧ e1.Index = w.cursor.LastIndex + 1))
    (hn : 1 ≤ n) :
    (w.putSeg (cur1.truncFile cur.SizeD)).cursor = w.cursor ∧
    (∃ cur2, (w.putSeg (cur1.truncFile cur.SizeD)).lookupSeg cid = some cur2 ∧
      cur2.file = cur.file) ∧
    (∀ es, (w.putSeg (cur1.truncFile cur.SizeD)).GetRange
        (w.cursor.LastIndex + 1) (w.cursor.LastIndex + n) = .ok es → es = []) := by
  have hcidx : cur.index = cid := (findSegBy_mem w.store cid cur hlook).2
  obtain ⟨suf, hsuf⟩ := hsuf
  have hSizeD : cur.SizeD = cur.file.length := by
    unfold Segment.SizeD Segment.Size
    rw [if_neg (by simp [hclosed])]
  have hfile2 : (cur1.truncFile cur.SizeD).file = cur.file := by
    show cur1.file.take cur.SizeD = cur.file
    rw [hsuf, hSizeD, List.take_left]
  have hx2 : (cur1.truncFile cur.SizeD).index = cid := by
    show cur1.index = cid
    rw [hx, hcidx]
  have hlook2 : (w.putSeg (cur1.truncFile cur.SizeD)).lookupSeg cid =
      some (cur1.truncFile cur.SizeD) :=
    lookupSeg_putSeg_eq w (cur1.truncFile cur.SizeD) cur cid hx2 hlook
  have hlast2 : ∀ id2 ∈ w.segments, id2 ≠ cid → ∀ s,
      findSegBy (w.putSeg (cur1.truncFile cur.SizeD)).store id2 = some s →
      s.lastEntry ≤ w.cursor.LastIndex := by
    intro id2 hm hne2 s hfind
    have hrw : findSegBy (w.putSeg (cur1.truncFile cur.SizeD)).store id2 =
        findSegBy w.store id2 :=
      findSegBy_replace_key_ne w.store (cur1.truncFile cur.SizeD).index id2
        (cur1.truncFile cur.SizeD) rfl (by rw [hx2]; exact hne2)
    rw [hrw] at hfind
    exact htip id2 hm s hfind
  have hcurlast : cur.lastEntry ≤ w.cursor.LastIndex := htip cid hmem cur hlook
  refine ⟨rfl, ⟨cur1.truncFile cur.SizeD, hlook2, hfile2⟩, ?_⟩
  rcases hdisj with hL | ⟨hT, he1⟩
  · have hnone : ∀ j, w.cursor.LastIndex + 1 ≤ j → j < w.cursor.LastIndex + 1 + n →
        (w.putSeg (cur1.truncFile cur.SizeD)).findSegmentByIndex j = none := by
      intro j hj1 hj2
      unfold Wal.findSegmentByIndex
      rw [show (w.putSeg (cur1.truncFile cur.SizeD)).segments = w.segments from rfl]
      apply findContaining_none
      intro id2 hm s hfind
      by_cases hid : id2 = cid
      · subst hid
        have hfind2 : (w.putSeg (cur1.truncFile cur.SizeD)).lookupSeg id2 = some s := hfind
        rw [hlook2] at hfind2
        injection hfind2 with hfind2
        subst hfind2
        have hle : (cur1.truncFile cur.SizeD).lastEntry ≤ w.cursor.LastIndex := by
          show cur1.lastEntry ≤ _
          rw [hL.2.1]
          exact hcurlast
        simp only [Segment.ContainsIndex, Bool.and_eq_false_iff, decide_eq_false_iff_not]
        right
        omega
      · have hle := hlast2 id2 hm hid s hfind
        simp only [Segment.ContainsIndex, Bool.and_eq_false_iff, decide_eq_false_iff_not]
        right
        omega
    have hGR : (w.putSeg (cur1.truncFile cur.SizeD)).GetRange (w.cursor.LastIndex + 1)
        (w.cursor.LastIndex + n) = .ok [] := by
      unfold Wal.GetRange
      rw [if_neg (show ¬ ((w.putSeg (cur1.truncFile cur.SizeD)).state = .Closed) from hnc)]
      rw [if_neg (by omega)]
      rw [show w.cursor.LastIndex + n + 1 - (w.cursor.LastIndex + 1) = n from by omega]
      exact getRangeLoop_none _ n _ [] hnone
    intro es hes
    rw [hGR] at hes
    injection hes with hes
    exact hes.symm
  · have hf2 : (cur1.truncFile cur.SizeD).firstEntry ≤ w.cursor.LastIndex + 1 := by
      show cur1.firstEntry ≤ _
      rw [hT.1]
      rcases hcontig with ⟨h0, _, _⟩ | ⟨h1, h2, h3, _⟩
      · rw [if_pos h0, he1]
      · rw [if_neg (by omega)]
        omega
    have hl2 : w.cursor.LastIndex + 1 ≤ (cur1.truncFile cur.SizeD).lastEntry := by
      show _ ≤ cur1.lastEntry
      rw [← he1]
      exact hT.2.1
    have hcont2 : (cur1.truncFile cur.SizeD).ContainsIndex (w.cursor.LastIndex + 1) =
        true := by
      simp only [Segment.ContainsIndex, Bool.and_eq_true, decide_eq_true_eq]
      exact ⟨hf2, hl2⟩
    have hoff2 : (cur1.truncFile cur.SizeD).entryOffsets.get?
        (w.cursor.LastIndex + 1 - (cur1.truncFile cur.SizeD).firstEntry) =
        some (cur1.truncFile cur.SizeD).file.length := by
      have hidx : w.cursor.LastIndex + 1 - (cur1.truncFile cur.SizeD).firstEntry =
          cur.entryOffsets.length := by
        show w.cursor.LastIndex + 1 - cur1.firstEntry = _
        rw [hT.1]
        rcases hcontig with ⟨h0, _, hof⟩ | ⟨h1, h2, h3, hof⟩
        · rw [if_pos h0, he1, hof]
          simp
        · rw [if_neg (by omega), hof]
          omega
      rw [hidx]
      show cur1.entryOffsets.get? _ = _
      rw [hT.2.2, hfile2]
    have hget2 : (cur1.truncFile cur.SizeD).GetEntryByIndex (w.cursor.LastIndex + 1) =
        .error .EOF := by
      unfold Segment.GetEntryByIndex
      rw [if_neg (by simp [hcont2])]
      simp only [hoff2]
      unfold Segment.ReadAt
      rw [if_neg (by simp [show (cur1.truncFile cur.SizeD).closed = false from hcl1])]
      unfold readFrame
      rw [if_pos (by omega)]
    have hfound : (w.putSeg (cur1.truncFile cur.SizeD)).findSegmentByIndex
        (w.cursor.LastIndex + 1) = some (cur1.truncFile cur.SizeD) := by
      unfold Wal.findSegmentByIndex
      rw [show (w.putSeg (cur1.truncFile cur.SizeD)).segments = w.segments from rfl]
      apply findContaining_found _ _ _ cid _ hmem hlook2 hcont2
      intro id2 hm s hfind hcont3
      by_cases hid : id2 = cid
      · subst hid
        have hfind2 : (w.putSeg (cur1.truncFile cur.SizeD)).lookupSeg id2 = some s := hfind
        rw [hlook2] at hfind2
        injection hfind2 with hfind2
        exact hfind2.symm
      · have hle := hlast2 id2 hm hid s hfind
        exfalso
        simp only [Segment.ContainsIndex, Bool.and_eq_true, decide_eq_true_eq] at hcont3
        omega
    have hGR : (w.putSeg (cur1.truncFile cur.SizeD)).GetRange (w.cursor.LastIndex + 1)
        (w.cursor.LastIndex + n) = .error .EOF := by
      unfold Wal.GetRange
      rw [if_neg (show ¬ ((w.putSeg (cur1.truncFile cur.SizeD)).state = .Closed) from hnc)]
      rw [if_neg (by omega)]
      obtain ⟨m, rfl⟩ : ∃ m, n = m + 1 := ⟨n - 1, by omega⟩
      rw [show w.cursor.LastIndex + (m + 1) + 1 - (w.cursor.LastIndex + 1) = m + 1 from
        by omega]
      exact getRangeLoop_err _ m _ [] _ .EOF hfound hget2
    intro es hes
    rw [hGR] at hes
    exact Except.noConfusion hes

/-! ## Claim C2 -/

/-- Claim C2 states that when the segment write inside `Append` fails, the
segment is truncated back to its pre-write byte size, leaving no partial
record (in particular no dangling length prefix from `Segment.Write`) and
the cursor unchanged.  The code contradicts this: `Append` returns the
write error without any truncation, so when the 4-byte length write
succeeded and the data write failed, the dangling length prefix stays in
the file.  Evaluated here on `wOne` (one 42-byte record) with the fault
schedule `[false, true]`: the call errors, the cursor is indeed unchanged,
but the file has grown from 42 to 46 bytes — the pre-write size is not
restored. -/
theorem c2_append_failure_keeps_dangling_length_prefix :
    (wOne.Append e0 [false, true]).2.2 = .error .IOFailure ∧
    (wOne.Append e0 [false, true]).1.cursor = wOne.cursor ∧
    (wOne.curSegment.map (fun s => s.file.length)) = some 42 ∧
    ((wOne.Append e0 [false, true]).1.curSegment.map (fun s => s.file)) =
      (wOne.curSegment.map (fun s =>
        s.file ++ leBytes 4 (encode { e0 with Index := 2 }).length)) ∧
    ((wOne.Append e0 [false, true]).1.curSegment.map (fun s => s.file.length)) = some 46 := by
  decide

/-- Claim C6, amended.  A new segment is created exactly when the current
segment's size at the *start* of `Append` is already at least
`segmentSize`; then the write goes into the freshly created segment (the
old segment keeps its bytes).  A write that merely *would* push the
current segment past the threshold stays in the current segment — that
segment only rotates on the next `Append`.  (`hnid` says the next segment
identifier is fresh in the object store; `hmax` keeps retention out of
the picture.) -/
theorem c6_amended_rotation_on_reached_threshold (w : Wal) (e : Entry) (i : Nat)
    (fs fs' : List Bool) (w' : Wal) (cid : Nat) (cur : Segment)
    (hnc : ¬ w.state = .Closed)
    (hcur : w.currentSeg = some cid) (hlook : w.lookupSeg cid = some cur)
    (hclosed : cur.closed = false)
    (hnid : ∀ s ∈ w.store, s.index ≠ w.nextSegId)
    (hmax : w.segments.length < w.config.maxSegments) :
    (cur.file.length < w.config.segmentSize →
      w.Append e fs = (w', fs', .ok i) →
      w'.segments = w.segments ∧ w'.currentSeg = some cid ∧
      ∃ seg', w'.lookupSeg cid = some seg' ∧
        seg'.file = cur.file ++ frameOf (encode { e with Index := i })) ∧
    (cur.file.length ≥ w.config.segmentSize →
      w.Append e fs = (w', fs', .ok i) →
      w'.segments = w.segments ++ [w.nextSegId] ∧
      w'.currentSeg = some w.nextSegId ∧
      (∃ seg', w'.lookupSeg w.nextSegId = some seg' ∧
        seg'.file = frameOf (encode { e with Index := i })) ∧
      w'.lookupSeg cid = some cur) := by
  have hcidx : cur.index = cid := (findSegBy_mem w.store cid cur hlook).2
  have hcseg : w.curSegment = some cur := by
    unfold Wal.curSegment
    rw [hcur]
    exact hlook
  have hsize : cur.Size = .ok cur.file.length := by
    unfold Segment.Size
    rw [if_neg (by simp [hclosed])]
  constructor
  · intro hlt heq
    unfold Wal.Append at heq
    rw [if_neg hnc, ensureSegment_of_some w cid hcur] at heq
    unfold appendSized at heq
    simp only [hcseg, hsize] at heq
    unfold appendRotate at heq
    rw [if_neg (by omega)] at heq
    obtain ⟨hi, cur3, fs3, hwr, hw⟩ := appendWrite_ok_state w e fs fs' w' i cur hcseg heq
    obtain ⟨hf, hx, _, _, _, _, _⟩ := write_ok_spec cur _ fs fs3 cur3 hwr
    have hx4 : (cur3.TrackEntry i cur.SizeD).index = cid := by
      rw [Segment.TrackEntry]
      exact hx.trans hcidx
    refine ⟨by rw [hw]; rfl, by rw [hw]; exact hcur, ?_⟩
    refine ⟨cur3.TrackEntry i cur.SizeD, ?_, hf⟩
    have h1 : (w.putSeg cur3).lookupSeg cid = some cur3 :=
      lookupSeg_putSeg_eq w cur3 cur cid (hx.trans hcidx) hlook
    have h2 : ((w.putSeg cur3).putSeg (cur3.TrackEntry i cur.SizeD)).lookupSeg cid =
        some (cur3.TrackEntry i cur.SizeD) :=
      lookupSeg_putSeg_eq (w.putSeg cur3) _ cur3 cid hx4 h1
    rw [hw]
    exact h2
  · intro hge heq
    unfold Wal.Append at heq
    rw [if_neg hnc, ensureSegment_of_some w cid hcur] at heq
    unfold appendSized at heq
    simp only [hcseg, hsize] at heq
    unfold appendRotate at heq
    rw [if_pos hge] at heq
    split at heq
    · simp at heq
    · rename_i w2 fs2 hro
      have hw2 : w2 = { w with store := w.store ++ [createSegment w.nextSegId],
                               segments := w.segments ++ [w.nextSegId],
                               currentSeg := some w.nextSegId } :=
        (rotateSegment_ok w w2 fs fs2 hro).trans (rotateFresh_no_retention w hmax)
      have hfresh : w2.lookupSeg w.nextSegId = some (createSegment w.nextSegId) := by
        rw [hw2]
        show findSegBy (w.store ++ [createSegment w.nextSegId]) w.nextSegId = _
        exact findSegBy_append_fresh w.store (createSegment w.nextSegId) hnid
      have hcseg2 : w2.curSegment = some (createSegment w.nextSegId) := by
        unfold Wal.curSegment
        rw [show w2.currentSeg = some w.nextSegId from by rw [hw2]]
        exact hfresh
      obtain ⟨hi, cur3, fs3, hwr, hw⟩ :=
        appendWrite_ok_state w2 e fs2 fs' w' i (createSegment w.nextSegId) hcseg2 heq
      obtain ⟨hf, hx, _, _, _, _, _⟩ :=
        write_ok_spec (createSegment w.nextSegId) _ fs2 fs3 cur3 hwr
      have hfile : cur3.file = frameOf (encode { e with Index := i }) := by
        rw [hf]
        rfl
      have hxn : cur3.index = w.nextSegId := hx
      have hx4 : (cur3.TrackEntry i (createSegment w.nextSegId).SizeD).index =
          w.nextSegId := hxn
      have hcidne : cid ≠ w.nextSegId := by
        have := hnid cur (findSegBy_mem w.store cid cur hlook).1
        rw [hcidx] at this
        exact this
      refine ⟨by rw [hw, hw2]; rfl, by rw [hw, hw2]; rfl, ?_, ?_⟩
      · refine ⟨cur3.TrackEntry i (createSegment w.nextSegId).SizeD, ?_, hfile⟩
        have h1 : (w2.putSeg cur3).lookupSeg w.nextSegId = some cur3 :=
          lookupSeg_putSeg_eq w2 cur3 (createSegment w.nextSegId) w.nextSegId hxn hfresh
        have h2 : ((w2.putSeg cur3).putSeg
            (cur3.TrackEntry i (createSegment w.nextSegId).SizeD)).lookupSeg w.nextSegId =
            some (cur3.TrackEntry i (createSegment w.nextSegId).SizeD) :=
          lookupSeg_putSeg_eq (w2.putSeg cur3) _ cur3 w.nextSegId hx4 h1
        rw [hw]
        exact h2
      · have h0 : w2.lookupSeg cid = some cur := by
          rw [hw2]
          show findSegBy (w.store ++ [createSegment w.nextSegId]) cid = some cur
          exact findSegBy_append_left w.store _ cid cur hlook
        have h1 : (w2.putSeg cur3).lookupSeg cid = some cur := by
          rw [lookupSeg_putSeg_ne w2 cur3 cid (by rw [hxn]; exact hcidne)]
          exact h0
        have h2 : ((w2.putSeg cur3).putSeg
            (cur3.TrackEntry i (createSegment w.nextSegId).SizeD)).lookupSeg cid =
            some cur := by
          rw [lookupSeg_putSeg_ne _ _ cid (by rw [hx4]; exact hcidne)]
          exact h1
        rw [hw]
        exact h2

/-- Witness for C6's amended claim, both branches exercised on concrete
logs: `wOne` (42-byte current segment, threshold 1000) keeps the write in
segment 1; the same log under threshold-reached conditions is exercised
through `wFull` (42-byte segment, threshold 42), where the next append
rotates into segment 2. -/
theorem c6_witness :
    (¬ wOne.state = .Closed ∧ wOne.currentSeg = some 1 ∧
     (wOne.lookupSeg 1).isSome ∧ wOne.segments.length < wOne.config.maxSegments) ∧
    (((wOne.lookupSeg 1).getD (createSegment 1)).file.length < wOne.config.segmentSize →
      wOne.Append e0 [] =
        ((wOne.Append e0 []).1, [], .ok 2) →
      (wOne.Append e0 []).1.segments = wOne.segments ∧
      (wOne.Append e0 []).1.currentSeg = some 1 ∧
      ∃ seg', (wOne.Append e0 []).1.lookupSeg 1 = some seg' ∧
        seg'.file = ((wOne.lookupSeg 1).getD (createSegment 1)).file ++
          frameOf (encode { e0 with Index := 2 })) := by
  refine ⟨⟨by decide, by decide, by decide, by decide⟩, ?_⟩
  have h := c6_amended_rotation_on_reached_threshold wOne e0 2 [] []
    (wOne.Append e0 []).1 1 ((wOne.lookupSeg 1).getD (createSegment 1))
    (by decide) (by decide) (by decide) (by decide) (by decide) (by decide)
  exact h.1

/-- Claim C7 states that a recovery scan hitting a malformed *or
incomplete* frame truncates the segment file at the last good offset and
stops, with `lastIndex` left at the last complete record.  The code only
truncates on a malformed frame: a frame with missing trailing bytes makes
`ReadAt` return `io.EOF` (Go's `ReadAt` reports `io.EOF` on any short
read), which `recoverSegment` treats as clean end of data, so it stops
*without* truncating.  Evaluated here: on `segTorn` (record 1 complete at
offset 0, record 2's frame cut 3 bytes short at offset 42) recovery stops
with the cursor at record 1 and record 1 readable, but the 81-byte file is
left as is instead of truncated to 42 bytes; on `segBad` (complete frame
whose payload is malformed) recovery does truncate at the last good
offset 42. -/
theorem c7_recovery_skips_truncating_torn_trailing_frame :
    ((openFresh cfg0).recoverSegment segTorn).1.cursor = ⟨1, 1⟩ ∧
    ((openFresh cfg0).recoverSegment segTorn).2.file = segTorn.file ∧
    segTorn.file.length = 81 ∧
    fr1.length = 42 ∧
    ((openFresh cfg0).recoverSegment segTorn).2.entryOffsets = [0] ∧
    ((openFresh cfg0).recoverSegment segTorn).2.GetEntryByIndex 1 =
      .ok (encode { e0 with Index := 1 }) ∧
    decode (encode { e0 with Index := 1 }) = .ok { e0 with Index := 1 } ∧
    ((openFresh cfg0).recoverSegment segBad).2.file = fr1 := by
  decide

/-! ## Claim C4 -/

/-- Claim C4, counterexample.  The claim says every terminated transaction
(Committed or Aborted by any path, including expiry detected inside
`AddToTransaction` or `CommitTransaction`) is removed from the table, so
every later operation on the id returns `TransactionNotFound`.  On the
concrete log `wTx` (one pending transaction, id 7, expired at instant
100): `AddToTransaction` terminates it (state `Aborted`), yet the entry
stays in the table, every later operation returns `TransactionNotPending`
— not `TransactionNotFound` — and even the expiry sweep leaves it in
place (the sweep only removes entries still `Pending`). -/
theorem c4_counterexample_terminated_tx_lingers :
    (wTx.AddToTransaction 7 e0 100).2 = .error .TransactionExpired ∧
    wTxAborted.getTx 7 = some { txP with State := .Aborted } ∧
    (wTxAborted.AddToTransaction 7 e0 100).2 = .error .TransactionNotPending ∧
    (wTxAborted.CommitTransaction 7 100 []).2.2 = .error .TransactionNotPending ∧
    (wTxAborted.RollbackTransaction 7).2 = .error .TransactionNotPending ∧
    (wTxAborted.CleanupExpiredTransactions 100).1.getTx 7 =
      some { txP with State := .Aborted } := by
  decide

/-! ## Claim C6 -/

/-- Claim C6, counterexample.  The claim says a new segment is created
whenever the current segment's size *would exceed* `segmentSize` after
the next write, so the threshold-crossing write always lands in a fresh
segment.  The code instead rotates only when the size at the start of
`Append` is already `≥ segmentSize`.  Concretely, with `segmentSize = 50`
and one 42-byte record in segment 1, appending a 70-byte frame would push
the segment to 112 > 50 bytes, yet no new segment is created: the write
lands in the same old segment (which still holds record 1). -/
theorem c6_counterexample_oversize_write_stays_in_current_segment :
    (((openFresh cfgC6).Append e0 []).1.Append eBig []).2.2 = .ok 2 ∧
    (((openFresh cfgC6).Append e0 []).1.Append eBig []).1.segments = [1] ∧
    ((((openFresh cfgC6).Append e0 []).1.Append eBig []).1.curSegment.map
      (fun s => (s.firstEntry, s.file.length))) = some (1, 112) ∧
    cfgC6.segmentSize = 50 ∧
    (((openFresh cfgC6).Append e0 []).1.curSegment.map (fun s => s.file.length)) =
      some 42 := by
  decide

/-! ## Claim C8 -/

/-- Claim C8, counterexample.  The claim says that for *every* index `i`
with `firstIndex ≤ i ≤ lastIndex`, `Truncate i` removes the segments
beyond `i`, sets `lastIndex = i`, and a following `Append` yields
`i + 1`.  On the two-segment log `wTwoSegs` (records 1-3,
`firstIndex = 1`, `lastIndex = 3`, current segment 2) with `i = 2`:
`Truncate` closes and removes segment 2 and sets `lastIndex = 2`, but it
never resets the `currentSegment` pointer, which still names the closed
segment — so the following fault-free `Append` fails with an I/O error
instead of appending at index 3. -/
theorem c8_counterexample_append_after_cross_segment_truncate_fails :
    (wTwoSegs.Truncate 2).2 = .ok () ∧
    (wTwoSegs.Truncate 2).1.cursor.LastIndex = 2 ∧
    (wTwoSegs.Truncate 2).1.segments = [1] ∧
    (wTwoSegs.Truncate 2).1.currentSeg = some 2 ∧
    ((wTwoSegs.Truncate 2).1.lookupSeg 2).map (fun s => s.closed) = some true ∧
    ((wTwoSegs.Truncate 2).1.Append e0 []).2.2 = .error .IOFailure := by
  decide

/-! ## Claim C1 -/

/-- Claim C1: `WriteBatch` is atomic.  On a non-empty batch over an open
log whose current segment is live and well-formed (`htip`: no segment
claims records beyond the cursor; `hcontig`: the current segment is fresh
or positionally indexed up to the cursor), and under an arbitrary fault
schedule `fs`: a success returns exactly the contiguous block of assigned
indices and advances `lastIndex` to the last of them; any failure —
whether a frame write failed after `k` of `n` frames or the final sync
failed — leaves the cursor (hence `lastIndex`) unchanged, restores the
current segment's file to exactly its pre-batch bytes, and a subsequent
`GetRange` over the assigned index range yields none of the `n`
records. -/
theorem c1_writebatch_atomic (w : Wal) (entries : List Entry) (now : Nat)
    (fs fs' : List Bool) (w' : Wal) (r : Except WalErr (List Nat))
    (cid : Nat) (cur : Segment)
    (hnc : ¬ w.state = .Closed)
    (hne : ¬ entries = [])
    (hcur : w.currentSeg = some cid) (hlook : w.lookupSeg cid = some cur)
    (hclosed : cur.closed = false)
    (hmem : cid ∈ w.segments)
    (htip : ∀ id2 ∈ w.segments, ∀ s, w.lookupSeg id2 = some s →
            s.lastEntry ≤ w.cursor.LastIndex)
    (hcontig : (cur.firstEntry = 0 ∧ cur.lastEntry = 0 ∧ cur.entryOffsets = []) ∨
               (1 ≤ cur.firstEntry ∧ cur.firstEntry ≤ cur.lastEntry ∧
                cur.lastEntry = w.cursor.LastIndex ∧
                cur.entryOffsets.length = cur.lastEntry + 1 - cur.firstEntry))
    (heq : w.WriteBatch entries now fs = (w', fs', r)) :
    (∀ idxs, r = .ok idxs →
      idxs = (List.range entries.length).map (fun k => w.cursor.LastIndex + k + 1) ∧
      w'.cursor.LastIndex = w.cursor.LastIndex + entries.length) ∧
    (∀ err, r = .error err →
      w'.cursor = w.cursor ∧
      (∃ cur2, w'.lookupSeg cid = some cur2 ∧ cur2.file = cur.file) ∧
      (∀ es, w'.GetRange (w.cursor.LastIndex + 1) (w.cursor.LastIndex + entries.length) =
        .ok es → es = [])) := by
  obtain ⟨eh, rest, rfl⟩ : ∃ eh rest, entries = eh :: rest := by
    cases entries with
    | nil => exact absurd rfl hne
    | cons a b => exact ⟨a, b, rfl⟩
  have hcseg : w.curSegment = some cur := by
    show w.currentSeg.bind w.lookupSeg = some cur
    rw [hcur]
    exact hlook
  have hlen1 : 1 ≤ (eh :: rest).length := by
    rw [List.length_cons]
    omega
  unfold Wal.WriteBatch at heq
  rw [if_neg hnc, if_neg hne, ensureSegment_of_some w cid hcur] at heq
  unfold batchGo at heq
  simp only [hcseg] at heq
  unfold batchWrite at heq
  split at heq
  · rename_i cur1 fs1 err hloop
    obtain ⟨hsuf, hoffs, hx, hcl1, hok, hdisj, htrk⟩ :=
      batchWriteLoop_spec (prepBatch w.cursor.LastIndex now (eh :: rest)) cur fs fs1 cur1
        (some err) hclosed (prepBatch_index_pos (eh :: rest) w.cursor.LastIndex now)
        (prepBatch_chain (eh :: rest) w.cursor.LastIndex now) hloop
    simp only [Prod.mk.injEq] at heq
    obtain ⟨hw', hfs', hr⟩ := heq
    have hdisj2 : (cur1.firstEntry = cur.firstEntry ∧ cur1.lastEntry = cur.lastEntry ∧
        cur1.entryOffsets = cur.entryOffsets) ∨
        (trackedHead cur cur1 (prepEntry w.cursor.LastIndex now eh) ∧
         (prepEntry w.cursor.LastIndex now eh).Index = w.cursor.LastIndex + 1) := by
      rcases hdisj with hL | ⟨z, hzm, hzT⟩
      · exact Or.inl hL
      · rw [show (prepBatch w.cursor.LastIndex now (eh :: rest)).head? =
          some (prepEntry w.cursor.LastIndex now eh) from rfl, Option.mem_def] at hzm
        injection hzm with hzm
        subst hzm
        exact Or.inr ⟨hzT, rfl⟩
    constructor
    · intro idxs hA
      rw [← hr] at hA
      exact Except.noConfusion hA
    · intro err2 _
      obtain ⟨hc1, hc2, hc3⟩ := wbRestore_spec w cid cur cur1
        (prepEntry w.cursor.LastIndex now eh) (eh :: rest).length hnc hmem hlook hclosed
        hcl1 htip hcontig hsuf hx hdisj2 hlen1
      rw [← hw']
      exact ⟨hc1, hc2, hc3⟩
  · rename_i cur1 fs1 hloop
    obtain ⟨hsuf, hoffs, hx, hcl1, hok, hdisj, htrk⟩ :=
      batchWriteLoop_spec (prepBatch w.cursor.LastIndex now (eh :: rest)) cur fs fs1 cur1
        none hclosed (prepBatch_index_pos (eh :: rest) w.cursor.LastIndex now)
        (prepBatch_chain (eh :: rest) w.cursor.LastIndex now) hloop
    have hT : trackedHead cur cur1 (prepEntry w.cursor.LastIndex now eh) :=
      htrk rfl (prepEntry w.cursor.LastIndex now eh) rfl
    have hdisj2 : (cur1.firstEntry = cur.firstEntry ∧ cur1.lastEntry = cur.lastEntry ∧
        cur1.entryOffsets = cur.entryOffsets) ∨
        (trackedHead cur cur1 (prepEntry w.cursor.LastIndex now eh) ∧
         (prepEntry w.cursor.LastIndex now eh).Index = w.cursor.LastIndex + 1) :=
      Or.inr ⟨hT, rfl⟩
    unfold batchSealed at heq
    split at heq
    · split at heq
      · rename_i fs2 e2 hs2
        simp only [Prod.mk.injEq] at heq
        obtain ⟨hw', hfs', hr⟩ := heq
        constructor
        · intro idxs hA
          rw [← hr] at hA
          exact Except.noConfusion hA
        · intro err2 _
          obtain ⟨hc1, hc2, hc3⟩ := wbRestore_spec w cid cur cur1
            (prepEntry w.cursor.LastIndex now eh) (eh :: rest).length hnc hmem hlook
            hclosed hcl1 htip hcontig hsuf hx hdisj2 hlen1
          rw [← hw']
          exact ⟨hc1, hc2, hc3⟩
      · rename_i fs2 hs2
        simp only [Prod.mk.injEq] at heq
        obtain ⟨hw', hfs', hr⟩ := heq
        constructor
        · intro idxs hA
          rw [← hr] at hA
          injection hA with hA
          subst hA
          refine ⟨prepBatch_map_index (eh :: rest) w.cursor.LastIndex now, ?_⟩
          rw [← hw']
          show ((prepBatch w.cursor.LastIndex now (eh :: rest)).map
            (fun e => e.Index)).getLastD 0 = w.cursor.LastIndex + (eh :: rest).length
          rw [prepBatch_map_index]
          exact getLastD_range_map w.cursor.LastIndex (eh :: rest).length hlen1
        · intro err hB
          rw [← hr] at hB
          exact Except.noConfusion hB
    · simp only [Prod.mk.injEq] at heq
      obtain ⟨hw', hfs', hr⟩ := heq
      constructor
      · intro idxs hA
        rw [← hr] at hA
        injection hA with hA
        subst hA
        refine ⟨prepBatch_map_index (eh :: rest) w.cursor.LastIndex now, ?_⟩
        rw [← hw']
        show ((prepBatch w.cursor.LastIndex now (eh :: rest)).map
          (fun e => e.Index)).getLastD 0 = w.cursor.LastIndex + (eh :: rest).length
        rw [prepBatch_map_index]
        exact getLastD_range_map w.cursor.LastIndex (eh :: rest).length hlen1
      · intro err hB
        rw [← hr] at hB
        exact Except.noConfusion hB

/-- Witness for C1: on `wTwoRec` (records 1-2 in a live current segment,
`lastIndex = 2`) with the batch `[e0]` and the fault schedule `[true]`
(the very first frame write fails): the call errors, the cursor is
unchanged, the segment file is restored to its 84 pre-batch bytes, and
`GetRange 3 3` yields no records. -/
theorem c1_witness :
    (¬ wTwoRec.state = .Closed ∧ ¬ ([e0] : List Entry) = [] ∧
     wTwoRec.currentSeg = some 1 ∧ wTwoRec.lookupSeg 1 = some segTwoRec ∧
     segTwoRec.closed = false ∧ 1 ∈ wTwoRec.segments ∧
     (∀ id2 ∈ wTwoRec.segments, ∀ s, wTwoRec.lookupSeg id2 = some s →
       s.lastEntry ≤ wTwoRec.cursor.LastIndex) ∧
     ((segTwoRec.firstEntry = 0 ∧ segTwoRec.lastEntry = 0 ∧
       segTwoRec.entryOffsets = []) ∨
      (1 ≤ segTwoRec.firstEntry ∧ segTwoRec.firstEntry ≤ segTwoRec.lastEntry ∧
       segTwoRec.lastEntry = wTwoRec.cursor.LastIndex ∧
       segTwoRec.entryOffsets.length =
         segTwoRec.lastEntry + 1 - segTwoRec.firstEntry)) ∧
     wTwoRec.WriteBatch [e0] 3 [true] =
       ((wTwoRec.WriteBatch [e0] 3 [true]).1, (wTwoRec.WriteBatch [e0] 3 [true]).2.1,
        (wTwoRec.WriteBatch [e0] 3 [true]).2.2)) ∧
    ((∀ idxs, (wTwoRec.WriteBatch [e0] 3 [true]).2.2 = .ok idxs →
       idxs = (List.range ([e0] : List Entry).length).map
         (fun k => wTwoRec.cursor.LastIndex + k + 1) ∧
       (wTwoRec.WriteBatch [e0] 3 [true]).1.cursor.LastIndex =
         wTwoRec.cursor.LastIndex + ([e0] : List Entry).length) ∧
     (∀ err, (wTwoRec.WriteBatch [e0] 3 [true]).2.2 = .error err →
       (wTwoRec.WriteBatch [e0] 3 [true]).1.cursor = wTwoRec.cursor ∧
       (∃ cur2, (wTwoRec.WriteBatch [e0] 3 [true]).1.lookupSeg 1 = some cur2 ∧
         cur2.file = segTwoRec.file) ∧
       (∀ es, (wTwoRec.WriteBatch [e0] 3 [true]).1.GetRange
           (wTwoRec.cursor.LastIndex + 1)
           (wTwoRec.cursor.LastIndex + ([e0] : List Entry).length) = .ok es →
         es = []))) :=
  ⟨⟨by decide, by decide, by decide, by decide, by decide, by decide, by decide,
    by decide, by decide⟩,
   c1_writebatch_atomic wTwoRec [e0] 3 [true] (wTwoRec.WriteBatch [e0] 3 [true]).2.1
     (wTwoRec.WriteBatch [e0] 3 [true]).1 (wTwoRec.WriteBatch [e0] 3 [true]).2.2 1
     segTwoRec (by decide) (by decide) (by decide) (by decide) (by decide) (by decide)
     (by decide) (by decide) (by decide)⟩

/-! ## Claim C10 -/

/-- Claim C10: `WriteBatch` replaces a zero `Timestamp` with the current
time and keeps a non-zero one (`prepBatch` is its index/timestamp
assignment loop), and `CommitTransaction` flushes the staged entries
through `WriteBatch`: committing a pending, unexpired transaction on a
live current segment with no injected faults appends exactly the frames
of the prepared entries to the segment file, every one of which carries a
non-zero timestamp — so an entry staged with the zero timestamp reaches
the file re-stamped with the current time. -/
theorem c10_commit_persists_normalized_timestamps (w : Wal) (id now : Nat)
    (tx : Transaction) (cid : Nat) (cur : Segment)
    (hnow : now ≠ 0)
    (hnc : ¬ w.state = .Closed)
    (htx : w.getTx id = some tx) (hpend : tx.State = .Pending)
    (hexp : tx.IsExpired now = false)
    (hne : ¬ tx.Entries = [])
    (hcur : w.currentSeg = some cid) (hlook : w.lookupSeg cid = some cur)
    (hclosed : cur.closed = false)
    (hsync : w.config.syncAfterWrite = false) :
    (∀ k e1, tx.Entries.get? k = some e1 →
      ∃ e2, (prepBatch w.cursor.LastIndex now tx.Entries).get? k = some e2 ∧
        e2.Timestamp = (if e1.Timestamp = 0 then now else e1.Timestamp) ∧
        e2.Data = e1.Data) ∧
    (∀ e2 ∈ prepBatch w.cursor.LastIndex now tx.Entries, e2.Timestamp ≠ 0) ∧
    (∃ w' idxs, w.CommitTransaction id now [] = (w', [], .ok idxs) ∧
      ∃ cur1, w'.lookupSeg cid = some cur1 ∧
        cur1.file = cur.file ++
          (prepBatch w.cursor.LastIndex now tx.Entries).flatMap
            (fun e => frameOf (encode e))) := by
  refine ⟨?_, prepBatch_nonzero_ts tx.Entries w.cursor.LastIndex now hnow, ?_⟩
  · intro k e1 h1
    exact ⟨prepEntry (w.cursor.LastIndex + k) now e1,
      prepBatch_get? tx.Entries w.cursor.LastIndex now k e1 h1, rfl, rfl⟩
  · have hcsegS : (w.setTx id { tx with State := .Committed }).curSegment = some cur := by
      show w.currentSeg.bind w.lookupSeg = some cur
      rw [hcur]
      exact hlook
    obtain ⟨seg1, hloop⟩ := batchWriteLoop_nofault
      (prepBatch w.cursor.LastIndex now tx.Entries) cur hclosed
    obtain ⟨⟨suf, hsuf⟩, hoffs, hx, hcl1, hok, hdisj, htrk⟩ :=
      batchWriteLoop_spec (prepBatch w.cursor.LastIndex now tx.Entries) cur [] [] seg1
        none hclosed (prepBatch_index_pos tx.Entries w.cursor.LastIndex now)
        (prepBatch_chain tx.Entries w.cursor.LastIndex now) hloop
    have hfile1 : seg1.file = cur.file ++
        (prepBatch w.cursor.LastIndex now tx.Entries).flatMap
          (fun e => frameOf (encode e)) := hok rfl
    have hWB : (w.setTx id { tx with State := .Committed }).WriteBatch tx.Entries now [] =
        (((w.setTx id { tx with State := .Committed }).putSeg seg1).advanceCursor
          (((prepBatch w.cursor.LastIndex now tx.Entries).map (fun e => e.Index)).headD 0)
          (((prepBatch w.cursor.LastIndex now tx.Entries).map (fun e => e.Index)).getLastD 0),
         [], .ok ((prepBatch w.cursor.LastIndex now tx.Entries).map (fun e => e.Index))) := by
      unfold Wal.WriteBatch
      rw [if_neg (show ¬ ((w.setTx id { tx with State := .Committed }).state = .Closed)
        from hnc)]
      rw [if_neg hne]
      rw [ensureSegment_of_some (w.setTx id { tx with State := .Committed }) cid
        (show (w.setTx id { tx with State := .Committed }).currentSeg = some cid from hcur)]
      unfold batchGo
      simp only [hcsegS]
      rw [show (w.setTx id { tx with State := .Committed }).cursor = w.cursor from rfl]
      unfold batchWrite
      simp only [hloop]
      unfold batchSealed
      rw [if_neg (show
        ¬ ((w.setTx id { tx with State := .Committed }).config.syncAfterWrite = true) from by
          show ¬ (w.config.syncAfterWrite = true)
          rw [hsync]
          simp)]
    have hcommit : w.CommitTransaction id now [] =
        ((((w.setTx id { tx with State := .Committed }).putSeg seg1).advanceCursor
            (((prepBatch w.cursor.LastIndex now tx.Entries).map (fun e => e.Index)).headD 0)
            (((prepBatch w.cursor.LastIndex now tx.Entries).map
              (fun e => e.Index)).getLastD 0)).delTx id,
         [], .ok ((prepBatch w.cursor.LastIndex now tx.Entries).map (fun e => e.Index))) := by
      unfold Wal.CommitTransaction
      rw [Wal.getTx] at htx
      simp only [Wal.getTx, htx]
      rw [if_neg (by simp [hpend]), if_neg (by simp [hexp])]
      rw [hWB]
    have hcidx : cur.index = cid := (findSegBy_mem w.store cid cur hlook).2
    have h1 : ((w.setTx id { tx with State := .Committed }).putSeg seg1).lookupSeg cid =
        some seg1 :=
      lookupSeg_putSeg_eq (w.setTx id { tx with State := .Committed }) seg1 cur cid
        (hx.trans hcidx) hlook
    exact ⟨_, _, hcommit, seg1, h1, hfile1⟩

/-- Witness for C10: on `wTxSeg` (records 1-2 in a live current segment,
pending transaction 7 whose one staged entry has a zero timestamp),
committing at instant 3 instantiates the theorem: the staged entry is
persisted re-stamped with timestamp 3. -/
theorem c10_witness :
    ((3 : Nat) ≠ 0 ∧ ¬ wTxSeg.state = .Closed ∧ wTxSeg.getTx 7 = some txP ∧
     txP.State = .Pending ∧ txP.IsExpired 3 = false ∧ ¬ txP.Entries = [] ∧
     wTxSeg.currentSeg = some 1 ∧ wTxSeg.lookupSeg 1 = some segTwoRec ∧
     segTwoRec.closed = false ∧ wTxSeg.config.syncAfterWrite = false) ∧
    ((∀ k e1, txP.Entries.get? k = some e1 →
       ∃ e2, (prepBatch wTxSeg.cursor.LastIndex 3 txP.Entries).get? k = some e2 ∧
         e2.Timestamp = (if e1.Timestamp = 0 then 3 else e1.Timestamp) ∧
         e2.Data = e1.Data) ∧
     (∀ e2 ∈ prepBatch wTxSeg.cursor.LastIndex 3 txP.Entries, e2.Timestamp ≠ 0) ∧
     (∃ w' idxs, wTxSeg.CommitTransaction 7 3 [] = (w', [], .ok idxs) ∧
       ∃ cur1, w'.lookupSeg 1 = some cur1 ∧
         cur1.file = segTwoRec.file ++
           (prepBatch wTxSeg.cursor.LastIndex 3 txP.Entries).flatMap
             (fun e => frameOf (encode e)))) :=
  ⟨⟨by decide, by decide, by decide, by decide, by decide, by decide, by decide,
    by decide, by decide, by decide⟩,
   c10_commit_persists_normalized_timestamps wTxSeg 7 3 txP 1 segTwoRec
     (by decide) (by decide) (by decide) (by decide) (by decide) (by decide)
     (by decide) (by decide) (by decide) (by decide)⟩

/-! ## Claim C9 -/

/-- Claim C9: the round-trip.  For every entry `e` whose payload fits a
frame (`hdata`) and whose timestamp fits 64 bits (`hts`), on an open,
well-formed log (the current segment is live and positionally indexed up
to the cursor; no segment claims records beyond the cursor; the next
segment identifier is fresh; retention is not triggered): if
`Append e` succeeds returning index `i`, then `Get i` on the resulting
log succeeds with a record whose payload and timestamp equal those of
`e`.  Both `Append` paths are covered: the write into the current
segment, and the write into a freshly rotated segment. -/
theorem c9_append_get_roundtrip (w : Wal) (e : Entry) (fs fs' : List Bool) (w' : Wal)
    (i : Nat) (cid : Nat) (cur : Segment)
    (hnc : ¬ w.state = .Closed)
    (hcur : w.currentSeg = some cid) (hlook : w.lookupSeg cid = some cur)
    (hclosed : cur.closed = false)
    (hmem : cid ∈ w.segments)
    (htip : ∀ id2 ∈ w.segments, ∀ s, w.lookupSeg id2 = some s →
            s.lastEntry ≤ w.cursor.LastIndex)
    (hcontig : (cur.firstEntry = 0 ∧ cur.lastEntry = 0 ∧ cur.entryOffsets = []) ∨
               (1 ≤ cur.firstEntry ∧ cur.firstEntry ≤ cur.lastEntry ∧
                cur.lastEntry = w.cursor.LastIndex ∧
                cur.entryOffsets.length = cur.lastEntry + 1 - cur.firstEntry))
    (hfirst : w.cursor.FirstIndex ≤ w.cursor.LastIndex + 1)
    (hnid : ∀ s ∈ w.store, s.index ≠ w.nextSegId)
    (hnids : w.nextSegId ∉ w.segments)
    (hmax : w.segments.length < w.config.maxSegments)
    (hdata : e.Data.length + 36 < 2 ^ 32)
    (hts : e.Timestamp < 2 ^ 64)
    (heq : w.Append e fs = (w', fs', .ok i)) :
    ∃ e2, w'.Get i = .ok e2 ∧ e2.Data = e.Data ∧ e2.Timestamp = e.Timestamp := by
  have hcidx : cur.index = cid := (findSegBy_mem w.store cid cur hlook).2
  have hcseg : w.curSegment = some cur := by
    show w.currentSeg.bind w.lookupSeg = some cur
    rw [hcur]
    exact hlook
  have hsize : cur.Size = .ok cur.file.length := by
    unfold Segment.Size
    rw [if_neg (by simp [hclosed])]
  have hSizeD : cur.SizeD = cur.file.length := by
    unfold Segment.SizeD Segment.Size
    rw [if_neg (by simp [hclosed])]
  have hdlen : (encode { e with Index := w.cursor.LastIndex + 1 }).length < 2 ^ 32 := by
    rw [encode_length]
    show 36 + e.Data.length < 2 ^ 32
    omega
  unfold Wal.Append at heq
  rw [if_neg hnc, ensureSegment_of_some w cid hcur] at heq
  unfold appendSized at heq
  simp only [hcseg, hsize] at heq
  unfold appendRotate at heq
  by_cases hge : cur.file.length ≥ w.config.segmentSize
  · rw [if_pos hge] at heq
    split at heq
    · simp at heq
    · rename_i w2 fs2 hro
      have hw2eq : w2 = rotatedWal w :=
        (rotateSegment_ok w w2 fs fs2 hro).trans (rotateFresh_no_retention w hmax)
      subst hw2eq
      have hfresh : findSegBy (w.store ++ [createSegment w.nextSegId]) w.nextSegId =
          some (createSegment w.nextSegId) :=
        findSegBy_append_fresh w.store (createSegment w.nextSegId) hnid
      have hcseg2 : (rotatedWal w).curSegment = some (createSegment w.nextSegId) := hfresh
      obtain ⟨hi, cur3, fs3, hwr, hw⟩ := appendWrite_ok_state _ e fs2 fs' w' i
        (createSegment w.nextSegId) hcseg2 heq
      have hi2 : i = w.cursor.LastIndex + 1 := hi
      subst hi2
      obtain ⟨hf, hx3, hfe, _, hoffs2, hclw, _⟩ :=
        write_ok_spec (createSegment w.nextSegId) _ fs2 fs3 cur3 hwr
      have hx3n : cur3.index = w.nextSegId := hx3
      have hcl3 : cur3.closed = false := hclw
      have hfirst4 : (cur3.TrackEntry (w.cursor.LastIndex + 1)
          (createSegment w.nextSegId).SizeD).firstEntry = w.cursor.LastIndex + 1 := by
        show (if cur3.firstEntry = 0 then w.cursor.LastIndex + 1 else cur3.firstEntry) = _
        rw [hfe]
        rw [if_pos (show (createSegment w.nextSegId).firstEntry = 0 from rfl)]
      have hcont4 : (cur3.TrackEntry (w.cursor.LastIndex + 1)
          (createSegment w.nextSegId).SizeD).ContainsIndex (w.cursor.LastIndex + 1) =
          true := by
        simp only [Segment.ContainsIndex, Bool.and_eq_true, decide_eq_true_eq]
        constructor
        · rw [hfirst4]
        · show w.cursor.LastIndex + 1 ≤ w.cursor.LastIndex + 1
          omega
      have hoff4 : (cur3.TrackEntry (w.cursor.LastIndex + 1)
          (createSegment w.nextSegId).SizeD).entryOffsets.get?
          (w.cursor.LastIndex + 1 - (cur3.TrackEntry (w.cursor.LastIndex + 1)
            (createSegment w.nextSegId).SizeD).firstEntry) =
          some ([] : List Nat).length := by
        rw [hfirst4, Nat.sub_self]
        show (cur3.entryOffsets ++ [(createSegment w.nextSegId).SizeD]).get? 0 = _
        rw [hoffs2]
        rfl
      have hget4 : (cur3.TrackEntry (w.cursor.LastIndex + 1)
          (createSegment w.nextSegId).SizeD).GetEntryByIndex (w.cursor.LastIndex + 1) =
          .ok (encode { e with Index := w.cursor.LastIndex + 1 }) := by
        refine getEntry_frame_ok _ _ [] _ hcl3 hcont4 ?_ hoff4 hdlen
        show cur3.file = _
        rw [hf]
        rfl
      have h1 : ((rotatedWal w).putSeg cur3).lookupSeg w.nextSegId = some cur3 :=
        lookupSeg_putSeg_eq _ cur3 (createSegment w.nextSegId) w.nextSegId hx3n hfresh
      have h2 : (((rotatedWal w).putSeg cur3).putSeg
          (cur3.TrackEntry (w.cursor.LastIndex + 1)
            (createSegment w.nextSegId).SizeD)).lookupSeg w.nextSegId =
          some (cur3.TrackEntry (w.cursor.LastIndex + 1)
            (createSegment w.nextSegId).SizeD) :=
        lookupSeg_putSeg_eq _ _ cur3 w.nextSegId hx3n h1
      have hfound : ((((rotatedWal w).putSeg cur3).putSeg
          (cur3.TrackEntry (w.cursor.LastIndex + 1)
            (createSegment w.nextSegId).SizeD)).advanceCursor (w.cursor.LastIndex + 1)
          (w.cursor.LastIndex + 1)).findSegmentByIndex (w.cursor.LastIndex + 1) =
          some (cur3.TrackEntry (w.cursor.LastIndex + 1)
            (createSegment w.nextSegId).SizeD) := by
        unfold Wal.findSegmentByIndex
        apply findContaining_found _ _ (w.segments ++ [w.nextSegId]) w.nextSegId _
          (List.mem_append_right _ (List.mem_singleton.mpr rfl)) h2 hcont4
        intro id2 hm s hfind hcont3
        rcases List.mem_append.mp hm with hmL | hmR
        · by_cases hidn : id2 = w.nextSegId
          · subst hidn
            exact absurd hmL hnids
          · have hstep1 : findSegBy (((rotatedWal w).putSeg cur3).putSeg
                (cur3.TrackEntry (w.cursor.LastIndex + 1)
                  (createSegment w.nextSegId).SizeD)).store id2 =
                findSegBy ((rotatedWal w).putSeg cur3).store id2 :=
              findSegBy_replace_key_ne _ (cur3.TrackEntry (w.cursor.LastIndex + 1)
                (createSegment w.nextSegId).SizeD).index id2 _ rfl
                (show id2 ≠ cur3.index from by rw [hx3n]; exact hidn)
            have hstep2 : findSegBy ((rotatedWal w).putSeg cur3).store id2 =
                findSegBy (w.store ++ [createSegment w.nextSegId]) id2 :=
              findSegBy_replace_key_ne _ cur3.index id2 cur3 rfl
                (by rw [hx3n]; exact hidn)
            have hstep3 : findSegBy (w.store ++ [createSegment w.nextSegId]) id2 =
                findSegBy w.store id2 :=
              findSegBy_append_single_ne w.store (createSegment w.nextSegId) id2 hidn
            rw [hstep1, hstep2, hstep3] at hfind
            have hle := htip id2 hmL s hfind
            exfalso
            simp only [Segment.ContainsIndex, Bool.and_eq_true, decide_eq_true_eq]
              at hcont3
            omega
        · have hidn : id2 = w.nextSegId := List.mem_singleton.mp hmR
          subst hidn
          have hfind2 : (((rotatedWal w).putSeg cur3).putSeg
              (cur3.TrackEntry (w.cursor.LastIndex + 1)
                (createSegment w.nextSegId).SizeD)).lookupSeg w.nextSegId = some s := hfind
          rw [h2] at hfind2
          injection hfind2 with hfind2
          exact hfind2.symm
      have hb : ¬ (w.cursor.LastIndex + 1 <
          ((((rotatedWal w).putSeg cur3).putSeg
            (cur3.TrackEntry (w.cursor.LastIndex + 1)
              (createSegment w.nextSegId).SizeD)).advanceCursor (w.cursor.LastIndex + 1)
            (w.cursor.LastIndex + 1)).cursor.FirstIndex ∨
          w.cursor.LastIndex + 1 >
          ((((rotatedWal w).putSeg cur3).putSeg
            (cur3.TrackEntry (w.cursor.LastIndex + 1)
              (createSegment w.nextSegId).SizeD)).advanceCursor (w.cursor.LastIndex + 1)
            (w.cursor.LastIndex + 1)).cursor.LastIndex) := by
        show ¬ (w.cursor.LastIndex + 1 <
          (if w.cursor.FirstIndex = 0 then w.cursor.LastIndex + 1
           else w.cursor.FirstIndex) ∨
          w.cursor.LastIndex + 1 > w.cursor.LastIndex + 1)
        by_cases h0 : w.cursor.FirstIndex = 0
        · rw [if_pos h0]
          omega
        · rw [if_neg h0]
          omega
      have hstate : ¬ ((((rotatedWal w).putSeg cur3).putSeg
          (cur3.TrackEntry (w.cursor.LastIndex + 1)
            (createSegment w.nextSegId).SizeD)).advanceCursor (w.cursor.LastIndex + 1)
          (w.cursor.LastIndex + 1)).state = WState.Closed := hnc
      refine ⟨truncEntry { e with Index := w.cursor.LastIndex + 1 }, ?_, rfl, ?_⟩
      · rw [hw]
        rw [get_ok_of_found _ _ _ _ hstate hb hfound hget4]
        exact decode_encode _
      · show e.Timestamp % 2 ^ 64 = e.Timestamp
        exact Nat.mod_eq_of_lt hts
  · rw [if_neg hge] at heq
    obtain ⟨hi, cur3, fs3, hwr, hw⟩ := appendWrite_ok_state w e fs fs' w' i cur hcseg heq
    subst hi
    obtain ⟨hf, hx3, hfe, _, hoffs2, hclw, _⟩ := write_ok_spec cur _ fs fs3 cur3 hwr
    have hcl3 : cur3.closed = false := by rw [hclw]; exact hclosed
    have hx4 : (cur3.TrackEntry (w.cursor.LastIndex + 1) cur.SizeD).index = cid := by
      show cur3.index = cid
      rw [hx3, hcidx]
    have hfirst4 : (cur3.TrackEntry (w.cursor.LastIndex + 1) cur.SizeD).firstEntry =
        (if cur.firstEntry = 0 then w.cursor.LastIndex + 1 else cur.firstEntry) := by
      show (if cur3.firstEntry = 0 then w.cursor.LastIndex + 1 else cur3.firstEntry) = _
      rw [hfe]
    have hcont4 : (cur3.TrackEntry (w.cursor.LastIndex + 1) cur.SizeD).ContainsIndex
        (w.cursor.LastIndex + 1) = true := by
      simp only [Segment.ContainsIndex, Bool.and_eq_true, decide_eq_true_eq]
      constructor
      · rw [hfirst4]
        rcases hcontig with ⟨h0, _, _⟩ | ⟨h1', h2', h3', _⟩
        · rw [if_pos h0]
        · rw [if_neg (by omega)]
          omega
      · show w.cursor.LastIndex + 1 ≤ w.cursor.LastIndex + 1
        omega
    have hoff4 : (cur3.TrackEntry (w.cursor.LastIndex + 1) cur.SizeD).entryOffsets.get?
        (w.cursor.LastIndex + 1 -
          (cur3.TrackEntry (w.cursor.LastIndex + 1) cur.SizeD).firstEntry) =
        some cur.file.length := by
      have hidx2 : w.cursor.LastIndex + 1 -
          (cur3.TrackEntry (w.cursor.LastIndex + 1) cur.SizeD).firstEntry =
          cur.entryOffsets.length := by
        rw [hfirst4]
        rcases hcontig with ⟨h0, _, hof⟩ | ⟨h1', h2', h3', hof⟩
        · rw [if_pos h0, hof]
          simp
        · rw [if_neg (by omega), hof]
          omega
      rw [hidx2]
      show (cur3.entryOffsets ++ [cur.SizeD]).get? cur.entryOffsets.length = _
      rw [hoffs2, get?_append_cons cur.entryOffsets cur.SizeD [], hSizeD]
    have hget4 : (cur3.TrackEntry (w.cursor.LastIndex + 1) cur.SizeD).GetEntryByIndex
        (w.cursor.LastIndex + 1) =
        .ok (encode { e with Index := w.cursor.LastIndex + 1 }) := by
      refine getEntry_frame_ok _ _ cur.file _ hcl3 hcont4 ?_ hoff4 hdlen
      show cur3.file = _
      rw [hf]
    have h1 : (w.putSeg cur3).lookupSeg cid = some cur3 :=
      lookupSeg_putSeg_eq w cur3 cur cid (hx3.trans hcidx) hlook
    have h2 : ((w.putSeg cur3).putSeg
        (cur3.TrackEntry (w.cursor.LastIndex + 1) cur.SizeD)).lookupSeg cid =
        some (cur3.TrackEntry (w.cursor.LastIndex + 1) cur.SizeD) :=
      lookupSeg_putSeg_eq _ _ cur3 cid hx4 h1
    have hfound : (((w.putSeg cur3).putSeg
        (cur3.TrackEntry (w.cursor.LastIndex + 1) cur.SizeD)).advanceCursor
        (w.cursor.LastIndex + 1) (w.cursor.LastIndex + 1)).findSegmentByIndex
        (w.cursor.LastIndex + 1) =
        some (cur3.TrackEntry (w.cursor.LastIndex + 1) cur.SizeD) := by
      unfold Wal.findSegmentByIndex
      apply findContaining_found _ _ w.segments cid _ hmem h2 hcont4
      intro id2 hm s hfind hcont3
      by_cases hid : id2 = cid
      · subst hid
        have hfind2 : ((w.putSeg cur3).putSeg
            (cur3.TrackEntry (w.cursor.LastIndex + 1) cur.SizeD)).lookupSeg id2 =
            some s := hfind
        rw [h2] at hfind2
        injection hfind2 with hfind2
        exact hfind2.symm
      · have hstep1 : findSegBy ((w.putSeg cur3).putSeg
            (cur3.TrackEntry (w.cursor.LastIndex + 1) cur.SizeD)).store id2 =
            findSegBy (w.putSeg cur3).store id2 :=
          findSegBy_replace_key_ne _
            (cur3.TrackEntry (w.cursor.LastIndex + 1) cur.SizeD).index id2 _ rfl
            (show id2 ≠ (cur3.TrackEntry (w.cursor.LastIndex + 1) cur.SizeD).index from
              by rw [hx4]; exact hid)
        have hstep2 : findSegBy (w.putSeg cur3).store id2 = findSegBy w.store id2 :=
          findSegBy_replace_key_ne _ cur3.index id2 cur3 rfl
            (by rw [hx3, hcidx]; exact hid)
        rw [hstep1, hstep2] at hfind
        have hle := htip id2 hm s hfind
        exfalso
        simp only [Segment.ContainsIndex, Bool.and_eq_true, decide_eq_true_eq] at hcont3
        omega
    have hb : ¬ (w.cursor.LastIndex + 1 <
        (((w.putSeg cur3).putSeg
          (cur3.TrackEntry (w.cursor.LastIndex + 1) cur.SizeD)).advanceCursor
          (w.cursor.LastIndex + 1) (w.cursor.LastIndex + 1)).cursor.FirstIndex ∨
        w.cursor.LastIndex + 1 >
        (((w.putSeg cur3).putSeg
          (cur3.TrackEntry (w.cursor.LastIndex + 1) cur.SizeD)).advanceCursor
          (w.cursor.LastIndex + 1) (w.cursor.LastIndex + 1)).cursor.LastIndex) := by
      show ¬ (w.cursor.LastIndex + 1 <
        (if w.cursor.FirstIndex = 0 then w.cursor.LastIndex + 1
         else w.cursor.FirstIndex) ∨
        w.cursor.LastIndex + 1 > w.cursor.LastIndex + 1)
      by_cases h0 : w.cursor.FirstIndex = 0
      · rw [if_pos h0]
        omega
      · rw [if_neg h0]
        omega
    have hstate : ¬ (((w.putSeg cur3).putSeg
        (cur3.TrackEntry (w.cursor.LastIndex + 1) cur.SizeD)).advanceCursor
        (w.cursor.LastIndex + 1) (w.cursor.LastIndex + 1)).state = WState.Closed := hnc
    refine ⟨truncEntry { e with Index := w.cursor.LastIndex + 1 }, ?_, rfl, ?_⟩
    · rw [hw]
      rw [get_ok_of_found _ _ _ _ hstate hb hfound hget4]
      exact decode_encode _
    · show e.Timestamp % 2 ^ 64 = e.Timestamp
      exact Nat.mod_eq_of_lt hts

/-- Witness for C9: on `wTwoRec` (records 1-2, cursor `⟨1, 2⟩`), a
fault-free `Append` of `e0` succeeds with index 3 and `Get 3` returns a
record with `e0`'s payload and timestamp. -/
theorem c9_witness :
    (¬ wTwoRec.state = .Closed ∧ wTwoRec.currentSeg = some 1 ∧
     wTwoRec.lookupSeg 1 = some segTwoRec ∧ segTwoRec.closed = false ∧
     1 ∈ wTwoRec.segments ∧
     (∀ id2 ∈ wTwoRec.segments, ∀ s, wTwoRec.lookupSeg id2 = some s →
       s.lastEntry ≤ wTwoRec.cursor.LastIndex) ∧
     ((segTwoRec.firstEntry = 0 ∧ segTwoRec.lastEntry = 0 ∧
       segTwoRec.entryOffsets = []) ∨
      (1 ≤ segTwoRec.firstEntry ∧ segTwoRec.firstEntry ≤ segTwoRec.lastEntry ∧
       segTwoRec.lastEntry = wTwoRec.cursor.LastIndex ∧
       segTwoRec.entryOffsets.length =
         segTwoRec.lastEntry + 1 - segTwoRec.firstEntry)) ∧
     wTwoRec.cursor.FirstIndex ≤ wTwoRec.cursor.LastIndex + 1 ∧
     (∀ s ∈ wTwoRec.store, s.index ≠ wTwoRec.nextSegId) ∧
     wTwoRec.nextSegId ∉ wTwoRec.segments ∧
     wTwoRec.segments.length < wTwoRec.config.maxSegments ∧
     e0.Data.length + 36 < 2 ^ 32 ∧ e0.Timestamp < 2 ^ 64 ∧
     wTwoRec.Append e0 [] =
       ((wTwoRec.Append e0 []).1, (wTwoRec.Append e0 []).2.1, .ok 3)) ∧
    (∃ e2, (wTwoRec.Append e0 []).1.Get 3 = .ok e2 ∧ e2.Data = e0.Data ∧
      e2.Timestamp = e0.Timestamp) :=
  ⟨⟨by decide, by decide, by decide, by decide, by decide, by decide, by decide,
    by decide, by decide, by decide, by decide, by decide, by decide, by decide⟩,
   c9_append_get_roundtrip wTwoRec e0 [] (wTwoRec.Append e0 []).2.1
     (wTwoRec.Append e0 []).1 3 1 segTwoRec (by decide) (by decide) (by decide)
     (by decide) (by decide) (by decide) (by decide) (by decide) (by decide)
     (by decide) (by decide) (by decide) (by decide) (by decide)⟩

end Walrus

